import Mathlib

/-!
# Elo rating pipeline (`src/elo.js`)

A shallow embedding of the rating pipeline: `removeInvisibleCharacters`, the
classes `Player`, `Match` and `Tournament`, and the properties of them that
are settled against the code.

Conventions of the embedding.

* A JavaScript string is the list of its characters.
* A JavaScript number is an element of a linear ordered field `α` (exact
  arithmetic); definitions are executable at `α = ℚ`.
* `undefined` and `null` are `none`.
* A reference to a `Player` object is its index in `Tournament.players`, the
  array that owns every player; the array only ever grows by `push`.
* A statement that can raise a `TypeError` returns an `Outcome`: the heap as
  mutated so far, and whether the error is propagating.
* The built-ins that the source calls but does not define and that have no
  finite description (`toLowerCase`, `Math.pow`, `toFixed`) are fields of
  `Builtins`.
* The outcomes of `Math.random` in `generateNewPairingsFromFile` are a function
  `random : Nat → Bool`: whether the sort of round `k` exchanges its two
  elements.
* A loop that pushes `label(player)` strings takes the `label` as a parameter,
  so that the players behind the strings can be named.
-/

namespace Elo

/-- A JavaScript string. -/
abbrev JSString := List Char

/-- The built-in functions the source relies on. -/
structure Builtins (α : Type) where
  /-- The method `String.prototype.toLowerCase`. -/
  toLowerCase : JSString → JSString
  /-- The call `Math.pow(10, x)`. -/
  pow10 : α → α
  /-- The method `Number.prototype.toFixed(digits)`. -/
  toFixed : α → Nat → JSString

/-- Characters matched by the class `[\u200B-\u200D\uFEFF]`. -/
def isInvisible (c : Char) : Bool :=
  (0x200B ≤ c.toNat && c.toNat ≤ 0x200D) || c.toNat == 0xFEFF

/-- Source `removeInvisibleCharacters`: `str.replace(/[\u200B-\u200D\uFEFF]/g, "")`. -/
def removeInvisibleCharacters (str : JSString) : JSString :=
  str.filter (fun c => !isInvisible c)

/-- ECMAScript `WhiteSpace` and `LineTerminator` code points, the ones
`String.prototype.trim` strips: TAB, LF, VT, FF, CR, SP, NBSP, U+1680,
U+2000 to U+200A, LS, PS, U+202F, U+205F, U+3000 and U+FEFF. -/
def isWhiteSpace (c : Char) : Bool :=
  (0x9 ≤ c.toNat && c.toNat ≤ 0xD) || c.toNat == 0x20 || c.toNat == 0xA0 ||
  c.toNat == 0x1680 || (0x2000 ≤ c.toNat && c.toNat ≤ 0x200A) ||
  c.toNat == 0x2028 || c.toNat == 0x2029 || c.toNat == 0x202F ||
  c.toNat == 0x205F || c.toNat == 0x3000 || c.toNat == 0xFEFF

/-- The method `String.prototype.trim`: white space is removed from both ends. -/
def trim (s : JSString) : JSString :=
  (s.dropWhile isWhiteSpace).rdropWhile isWhiteSpace

/-- Stand-in for `toLowerCase` on one character: the letters `A` to `Z` are
lowered, every other character is kept. -/
def lowerChar (c : Char) : Char :=
  if 65 ≤ c.toNat ∧ c.toNat ≤ 90 then Char.ofNat (c.toNat + 32) else c

/-- Stand-in for `toLowerCase` used to evaluate the model at concrete names:
it agrees with the built-in on strings whose cased letters are all ASCII. -/
def asciiLower (s : JSString) : JSString := s.map lowerChar

/-- One entry of `ratingHistory`: `{ rating, event }`; `event` is `none` for
`null`, and a date is its time value. -/
structure RatingRecord (α : Type) where
  rating : α
  event : Option Nat
  deriving DecidableEq, Repr

/-- Fields of a `Player` object; `gender` is `none` for `undefined` and a
string otherwise. -/
structure Player (α : Type) where
  name : JSString
  gender : Option JSString
  matchesPlayed : Nat
  wins : Nat
  losses : Nat
  rating : α
  ratingHistory : List (RatingRecord α)
  deriving DecidableEq, Repr

/-- Result of running statements on a state `σ`: normal completion, or a
`TypeError` propagating, each with the state as mutated so far. -/
inductive Outcome (σ : Type) where
  | ok (s : σ)
  | threw (s : σ)
  deriving DecidableEq, Repr

/-- The state an outcome leaves behind. -/
def Outcome.state {σ : Type} : Outcome σ → σ
  | .ok s => s
  | .threw s => s

/-- Sequencing of statements: the rest runs only after normal completion. -/
def Outcome.andThen {σ : Type} (o : Outcome σ) (f : σ → Outcome σ) : Outcome σ :=
  match o with
  | .ok s => f s
  | .threw s => .threw s

section Model

variable {α : Type} [LinearOrderedField α]

/-- Source `Player.constructor`: rating 1500 and a history of one record `(1500, null)`. -/
def Player.new (name : JSString) (gender : Option JSString) : Player α :=
  { name := name, gender := gender, matchesPlayed := 0, wins := 0, losses := 0,
    rating := 1500, ratingHistory := [{ rating := 1500, event := none }] }

/-- The value `Math.min(Math.max(scaled, 0), 10)` inside the getter `scaledRating`. -/
def Player.scaledValue (p : Player α) : α :=
  let minRating : α := 1000
  let maxRating : α := 2000
  let scaled := ((p.rating - minRating) / (maxRating - minRating)) * 10
  min (max scaled 0) 10

/-- Source getter `Player.scaledRating`: the clamped value through `toFixed(1)`. -/
def Player.scaledRating (B : Builtins α) (p : Player α) : JSString :=
  B.toFixed p.scaledValue 1

/-- Source `Player.recordMatch`. -/
def Player.recordMatch (p : Player α) (result : String) : Player α :=
  let p1 := { p with matchesPlayed := p.matchesPlayed + 1 }
  if result = "win" then { p1 with wins := p1.wins + 1 }
  else { p1 with losses := p1.losses + 1 }

/-- Source `Player.updateRating`, with the default arguments made explicit. -/
def Player.updateRating (B : Builtins α) (p : Player α) (opponentRating : α)
    (result : String) (kFactor : α) (marginFactor : α) : Player α :=
  let expectedScore := 1 / (1 + B.pow10 ((opponentRating - p.rating) / 400))
  let actualScore : α := if result = "win" then 1 else 0
  { p with rating := p.rating + kFactor * marginFactor * (actualScore - expectedScore) }

/-- Source `Player.recordEventRating`; `none` is the `TypeError` of reading
`lastRecord.rating` when the history is empty. -/
def Player.recordEventRating (p : Player α) (eventDate : Option Nat) : Option (Player α) :=
  match p.ratingHistory.getLast? with
  | none => none
  | some lastRecord =>
    if lastRecord.rating ≠ p.rating ∨ lastRecord.event = none then
      some { p with ratingHistory := p.ratingHistory ++ [{ rating := p.rating, event := eventDate }] }
    else some p

/-- Fields of a `Match` object; a team member is a player reference or `undefined`. -/
structure Match (α : Type) where
  teamA : List (Option Nat)
  teamB : List (Option Nat)
  scoreA : α
  scoreB : α
  winner : List (Option Nat)
  loser : List (Option Nat)
  deriving DecidableEq, Repr

/-- Source `Match.constructor`. -/
def Match.new (teamA teamB : List (Option Nat)) (scoreA scoreB : α) : Match α :=
  { teamA := teamA, teamB := teamB, scoreA := scoreA, scoreB := scoreB,
    winner := if scoreA > scoreB then teamA else teamB,
    loser := if scoreA > scoreB then teamB else teamA }

/-- The loop `team.forEach(player => ...)` where the body mutates `player`
by `f`: reaching an `undefined` member raises a `TypeError`, the members
before it stay mutated. A reference that points outside the heap counts as
`undefined`; `getPlayerByName` never returns one. -/
def forEachPlayer (f : Player α → Player α) :
    List (Option Nat) → List (Player α) → Outcome (List (Player α))
  | [], ps => .ok ps
  | none :: _, ps => .threw ps
  | some i :: rest, ps =>
    match ps[i]? with
    | none => .threw ps
    | some p => forEachPlayer f rest (ps.set i (f p))

/-- The expression `team[k].rating`; `none` is the `TypeError` raised when
`team[k]` is `undefined`. -/
def memberRating (ps : List (Player α)) (team : List (Option Nat)) (k : Nat) : Option α :=
  match team[k]? with
  | some (some i) => (ps[i]?).map (fun p => p.rating)
  | _ => none

/-- Source `Match.updateRatingsForDoubles`. -/
def updateRatingsForDoubles (B : Builtins α) (teamA teamB : List (Option Nat))
    (result : String) (kFactor : α) (scoreA scoreB : α) (ps : List (Player α)) :
    Outcome (List (Player α)) :=
  match memberRating ps teamA 0, memberRating ps teamA 1,
        memberRating ps teamB 0, memberRating ps teamB 1 with
  | some a0, some a1, some b0, some b1 =>
    let ratingTeamA := (a0 + a1) / 2
    let ratingTeamB := (b0 + b1) / 2
    let expectedScoreA := 1 / (1 + B.pow10 ((ratingTeamB - ratingTeamA) / 400))
    let expectedScoreB := 1 / (1 + B.pow10 ((ratingTeamA - ratingTeamB) / 400))
    let actualScoreA : α := if result = "winA" then 1 else 0
    let actualScoreB : α := if result = "winB" then 1 else 0
    let marginFactor := 1 + |scoreA - scoreB| / 21
    (forEachPlayer
        (fun player => { player with rating :=
          player.rating + kFactor * marginFactor * (actualScoreA - expectedScoreA) })
        teamA ps).andThen
      (forEachPlayer
        (fun player => { player with rating :=
          player.rating + kFactor * marginFactor * (actualScoreB - expectedScoreB) })
        teamB)
  | _, _, _, _ => .threw ps

/-- The expression `team[0].name` of the `catch` block, `none` when it raises. -/
def captainName (ps : List (Player α)) (team : List (Option Nat)) : Option JSString :=
  match team[0]? with
  | some (some i) => (ps[i]?).map (fun p => p.name)
  | _ => none

/-- Source `Match.play`: the `try` body, then the `catch` block, whose
`console.log` reads `teamA[0].name` and `teamB[0].name` and so raises again
when either captain is `undefined`. The local `marginFactor` of `play` is never
read and is left out. -/
def Match.play (B : Builtins α) (m : Match α) (ps : List (Player α)) :
    Outcome (List (Player α)) :=
  let body : Outcome (List (Player α)) :=
    if m.scoreA > m.scoreB then
      ((forEachPlayer (fun player => player.recordMatch "win") m.teamA ps).andThen
        (forEachPlayer (fun player => player.recordMatch "lose") m.teamB)).andThen
        (updateRatingsForDoubles B m.teamA m.teamB "winA" 32 m.scoreA m.scoreB)
    else
      ((forEachPlayer (fun player => player.recordMatch "win") m.teamB ps).andThen
        (forEachPlayer (fun player => player.recordMatch "lose") m.teamA)).andThen
        (updateRatingsForDoubles B m.teamA m.teamB "winB" 32 m.scoreA m.scoreB)
  match body with
  | .ok ps1 => .ok ps1
  | .threw ps1 =>
    match captainName ps1 m.teamA, captainName ps1 m.teamB with
    | some _, some _ => .ok ps1
    | _, _ => .threw ps1

/-- Fields of a `Tournament` object; `matches_` is the field `matches`. -/
structure Tournament (α : Type) where
  players : List (Player α)
  matches_ : List (Match α)
  deriving DecidableEq, Repr

/-- Source `Tournament.constructor`. -/
def Tournament.new : Tournament α := { players := [], matches_ := [] }

/-- The key `removeInvisibleCharacters(name.toLowerCase().trim())` that
`getPlayerByName` compares. -/
def lookupKey (B : Builtins α) (name : JSString) : JSString :=
  removeInvisibleCharacters (trim (B.toLowerCase name))

/-- The method `Array.prototype.find`, returning the position of the first match. -/
def findRef (key : JSString → Bool) : List (Player α) → Option Nat
  | [] => none
  | p :: ps => if key p.name then some 0 else (findRef key ps).map (fun i => i + 1)

/-- Source `Tournament.getPlayerByName`. -/
def Tournament.getPlayerByName (B : Builtins α) (t : Tournament α) (name : JSString) :
    Option Nat :=
  let normalizedName := lookupKey B name
  findRef (fun n => lookupKey B n == normalizedName) t.players

/-- Source `Tournament.addPlayer`, with the default rating made explicit by the
caller. The reference that `getPlayerByName` returns is read back from the
array, where it always is. -/
def Tournament.addPlayer (B : Builtins α) (t : Tournament α) (playerName : JSString)
    (initialRating : α) (gender : Option JSString) : Tournament α :=
  let normalizedName := removeInvisibleCharacters (trim playerName)
  match (t.getPlayerByName B normalizedName).bind (fun i => (t.players[i]?).map (fun p => (i, p))) with
  | none =>
    let player : Player α := { (Player.new normalizedName gender : Player α) with rating := initialRating }
    { t with players := t.players ++ [player] }
  | some (i, player) =>
    if player.gender = none ∧ gender ≠ none then
      { t with players := t.players.set i { player with gender := gender } }
    else t

/-- Source `Tournament.addMatch`: the `push` is not reached when `play` raises. -/
def Tournament.addMatch (B : Builtins α) (t : Tournament α)
    (teamAPlayers teamBPlayers : List JSString) (scoreA scoreB : α) :
    Outcome (Tournament α) :=
  let teamA := teamAPlayers.map (fun playerName => t.getPlayerByName B playerName)
  let teamB := teamBPlayers.map (fun playerName => t.getPlayerByName B playerName)
  let m := Match.new teamA teamB scoreA scoreB
  match m.play B t.players with
  | .ok ps => .ok { players := ps, matches_ := t.matches_ ++ [m] }
  | .threw ps => .threw { t with players := ps }

/-- The label `player.name + " (" + player.scaledRating + ")"` of a pairing. -/
def pairingLabel (B : Builtins α) (player : Player α) : JSString :=
  player.name ++ " (".toList ++ player.scaledRating B ++ ")".toList

/-- The comparator `(a, b) => b.rating - a.rating`: `a` is not placed after `b`. -/
def ratingDescending (a b : Player α) : Prop := b.rating ≤ a.rating

instance ratingDescendingDecidable : DecidableRel (ratingDescending : Player α → Player α → Prop) :=
  fun a b => inferInstanceAs (Decidable (b.rating ≤ a.rating))

instance ratingDescending_total : IsTotal (Player α) ratingDescending :=
  ⟨fun a b => le_total b.rating a.rating⟩

instance ratingDescending_trans : IsTrans (Player α) ratingDescending :=
  ⟨fun _ _ _ hab hbc => le_trans hbc hab⟩

/-- Source `Tournament.generateNewPairings`; the sort is stable, and `none`
would be the `TypeError` of reading `.name` of a missing array element. -/
def Tournament.generateNewPairings (B : Builtins α) (t : Tournament α) :
    Option (List (List JSString)) :=
  let sortedPlayers := t.players.insertionSort ratingDescending
  let midIndex := sortedPlayers.length / 2
  (List.range midIndex).mapM (fun i => do
    let topPlayer ← sortedPlayers[i]?
    let bottomPlayer ← sortedPlayers[sortedPlayers.length - 1 - i]?
    pure [pairingLabel B topPlayer, pairingLabel B bottomPlayer])

/-- A call made on a tournament by its driver. -/
inductive Call (α : Type) where
  | addPlayer (playerName : JSString) (initialRating : α) (gender : Option JSString)
  | addMatch (teamAPlayers teamBPlayers : List JSString) (scoreA scoreB : α)

/-- One call and its outcome. -/
def Tournament.call (B : Builtins α) (t : Tournament α) : Call α → Outcome (Tournament α)
  | .addPlayer playerName initialRating gender =>
    .ok (t.addPlayer B playerName initialRating gender)
  | .addMatch teamAPlayers teamBPlayers scoreA scoreB =>
    t.addMatch B teamAPlayers teamBPlayers scoreA scoreB

/-- The tournament after a sequence of calls, each made on the state the
previous call left behind, whether it completed or raised. -/
def Tournament.run (B : Builtins α) (t : Tournament α) (calls : List (Call α)) :
    Tournament α :=
  calls.foldl (fun s c => (s.call B c).state) t

/-- Result of the getter `winRate`: the number `0`, or the string that
`toFixed(2)` returns. -/
inductive WinRate (α : Type) where
  | number (x : α)
  | text (s : JSString)
  deriving DecidableEq, Repr

/-- Source getter `Player.winRate`. -/
def Player.winRate (B : Builtins α) (p : Player α) : WinRate α :=
  if p.matchesPlayed = 0 then .number 0
  else .text (B.toFixed ((p.wins : α) / (p.matchesPlayed : α)) 2)

/-- The test `p.gender === 'male'`. -/
def isMale (p : Player α) : Bool := p.gender == some "male".toList

/-- The test `p.gender === 'female'`. -/
def isFemale (p : Player α) : Bool := p.gender == some "female".toList

/-- The first `while` loop of `generateNewPairingsFromFile`: as long as both
sorted pools hold two players, `shift` two males, `pop` two females, order
the two females by the comparator `() => Math.random() - 0.5` and push two
pairs. `label` is what is pushed for a player, `random k` tells whether the
sort of round `k` exchanges the two females. The result is the pairs pushed
and the two pools left. -/
def balancedLoop {β : Type} (label : Player α → β) (random : Nat → Bool) :
    Nat → List (Player α) → List (Player α) →
      List (List β) × List (Player α) × List (Player α)
  | k, m0 :: m1 :: males, females =>
    if 2 ≤ females.length then
      match females.getLast?, females.dropLast.getLast? with
      | some f0, some f1 =>
        let shuffledFemales := if random k then (f1, f0) else (f0, f1)
        let next := balancedLoop label random (k + 1) males females.dropLast.dropLast
        ([label m0, label shuffledFemales.1] :: [label m1, label shuffledFemales.2] :: next.1,
          next.2)
      | _, _ => ([], m0 :: m1 :: males, females)
    else ([], m0 :: m1 :: males, females)
  | _, males, females => ([], males, females)

/-- The second `while` loop of `generateNewPairingsFromFile` and the `if` after
it: `shift` and `pop` a pair while two players remain, then push a last
player alone. The loop runs at most `fuel` rounds. -/
def leftoverLoop {β : Type} (label : Player α → β) :
    Nat → List (Player α) → List (List β)
  | 0, _ => []
  | fuel + 1, remainingPlayers =>
    if 2 ≤ remainingPlayers.length then
      match remainingPlayers.head?, remainingPlayers.getLast? with
      | some player1, some player2 =>
        [label player1, label player2] ::
          leftoverLoop label fuel remainingPlayers.tail.dropLast
      | _, _ => []
    else
      match remainingPlayers.head? with
      | some player => [[label player]]
      | none => []

/-- The pairing list of `generateNewPairingsFromFile`, from the available
player objects to the end of the leftover phase. The leftover loop is given
one round more than there are players left, more than it can use. -/
def pairingsFromObjects {β : Type} (label : Player α → β) (random : Nat → Bool)
    (availablePlayerObjects : List (Player α)) : List (List β) :=
  let sortedMalePlayers := (availablePlayerObjects.filter isMale).insertionSort ratingDescending
  let sortedFemalePlayers :=
    (availablePlayerObjects.filter isFemale).insertionSort ratingDescending
  let balanced := balancedLoop label random 0 sortedMalePlayers sortedFemalePlayers
  let remainingPlayers := balanced.2.1 ++ balanced.2.2
  balanced.1 ++ leftoverLoop label (remainingPlayers.length + 1) remainingPlayers

/-- The loop that deals the pairings to the houses in turn; `none` is the
`TypeError` of `houses[houseIndex].push` on a missing house. -/
def dealToHouses {β : Type} (numHouses : Nat) :
    List β → Nat → List (List β) → Option (List (List β))
  | [], _, houses => some houses
  | pairing :: pairings, houseIndex, houses =>
    match houses[houseIndex]? with
    | none => none
    | some house =>
      dealToHouses numHouses pairings ((houseIndex + 1) % numHouses)
        (houses.set houseIndex (house ++ [pairing]))

/-- The house grouping of `generateNewPairingsFromFile`: `Math.ceil(length / 2)`
empty houses, filled in turn. -/
def groupIntoHouses {β : Type} (pairings : List β) : Option (List (List β)) :=
  let numHouses := (pairings.length + 1) / 2
  dealToHouses numHouses pairings 0 (List.replicate numHouses [])

/-- The loop `players.forEach(player => this.addPlayer(player.name, rating, player.gender))`. -/
def Tournament.addPlayers (B : Builtins α) (t : Tournament α)
    (players : List (JSString × α × Option JSString)) : Tournament α :=
  players.foldl (fun s player => s.addPlayer B player.1 player.2.1 player.2.2) t

/-- Source `Tournament.generateNewPairingsFromFile` on the parsed list
`data.available_players`, up to the houses it returns; the report that it
writes to the console in between is left out. The result is the tournament
after the `addPlayer` calls, and the houses. -/
def Tournament.generateNewPairingsFromFile (B : Builtins α) (random : Nat → Bool)
    (t : Tournament α) (available_players : List (JSString × Option JSString)) :
    Tournament α × Option (List (List (List JSString))) :=
  let availablePlayers := available_players.map
    (fun player => (removeInvisibleCharacters (trim player.1), player.2))
  let t1 := t.addPlayers B (availablePlayers.map (fun player => (player.1, 1500, player.2)))
  let availablePlayerObjects := availablePlayers.filterMap
    (fun player => (t1.getPlayerByName B player.1).bind (fun i => t1.players[i]?))
  (t1, groupIntoHouses (pairingsFromObjects (pairingLabel B) random availablePlayerObjects))

end Model

/-! ## Concrete inputs -/

/-- Stand-in for `Math.pow(10, x)` on rationals, exact at integer exponents. -/
def pow10Q (x : ℚ) : ℚ := (10 : ℚ) ^ ⌊x⌋

/-- Stand-in for `toFixed` on rationals: the nearest multiple of
`10 ^ (-digits)`, ties upward in magnitude, in decimal notation. -/
def toFixedQ (x : ℚ) (digits : Nat) : JSString :=
  let n : Nat := (⌊|x| * 10 ^ digits + 1 / 2⌋).toNat
  let whole := Nat.toDigits 10 (n / 10 ^ digits)
  let frac := (Nat.toDigits 10 (10 ^ digits + n % 10 ^ digits)).tail
  let body := if digits = 0 then whole else whole ++ '.' :: frac
  if x < 0 then '-' :: body else body

/-- The built-ins used to evaluate the model on rationals. -/
def stdBuiltins : Builtins ℚ :=
  { toLowerCase := asciiLower, pow10 := pow10Q, toFixed := toFixedQ }

/-- A fresh player object with the given name and rating. -/
def samplePlayer (name : String) (rating : ℚ) : Player ℚ :=
  { (Player.new name.toList none : Player ℚ) with rating := rating }

/-- A roster of four players added with the default rating. -/
def fourPlayers : Tournament ℚ :=
  (((Tournament.new.addPlayer stdBuiltins "Al".toList 1500 none).addPlayer
    stdBuiltins "Bo".toList 1500 none).addPlayer
    stdBuiltins "Cy".toList 1500 none).addPlayer stdBuiltins "Di".toList 1500 none

/-- The name U+200B, space, `A`, `l`: a zero-width character before a space. -/
def zeroWidthName : JSString := [Char.ofNat 0x200B, ' ', 'A', 'l']

/-- Four players ranked `A > B > C > D` by rating, stored in another order. -/
def rankedFour : Tournament ℚ :=
  { players := [samplePlayer "C" 1450, samplePlayer "A" 1700, samplePlayer "D" 1300,
      samplePlayer "B" 1550],
    matches_ := [] }

/-- Three players are added, then a match is played whose second team-A name
is not in the roster. -/
def partlyFailingCalls : List (Call ℚ) :=
  [.addPlayer "Al".toList 1500 none, .addPlayer "Bo".toList 1500 none,
   .addPlayer "Cy".toList 1500 none,
   .addMatch ["Al".toList, "Zed".toList] ["Bo".toList, "Cy".toList] 21 10]

/-- A new player after three wins. -/
def threeWins : Player ℚ :=
  (((Player.new "Al".toList none : Player ℚ).recordMatch "win").recordMatch "win").recordMatch "win"

/-- A new player after three wins and a loss. -/
def threeWinsOneLoss : Player ℚ := threeWins.recordMatch "lose"

/-- A new player object with the given name, gender and rating. -/
def genderedPlayer (name gender : String) (rating : ℚ) : Player ℚ :=
  { (Player.new name.toList (some gender.toList) : Player ℚ) with rating := rating }

/-- A pool of four males and four females, in no particular order. -/
def poolFourFour : List (Player ℚ) :=
  [genderedPlayer "Ma" "male" 1400, genderedPlayer "Fa" "female" 1800,
   genderedPlayer "Mb" "male" 1700, genderedPlayer "Fb" "female" 1250,
   genderedPlayer "Mc" "male" 1600, genderedPlayer "Fc" "female" 1500,
   genderedPlayer "Md" "male" 1300, genderedPlayer "Fd" "female" 1350]

/-- A pool of three males and one female, who is rated above them. -/
def mixedLeftover : List (Player ℚ) :=
  [genderedPlayer "Mb" "male" 1400, genderedPlayer "Mc" "male" 1300,
   genderedPlayer "Md" "male" 1200, genderedPlayer "Fa" "female" 1800]

/-- A pool of five males. -/
def fiveMales : List (Player ℚ) :=
  [genderedPlayer "Mc" "male" 1300, genderedPlayer "Ma" "male" 1500,
   genderedPlayer "Me" "male" 1100, genderedPlayer "Mb" "male" 1400,
   genderedPlayer "Md" "male" 1200]

/-- The pool of four males and four females, and one male more. -/
def poolNine : List (Player ℚ) := poolFourFour ++ [genderedPlayer "Me" "male" 1100]

/-! ## Running a match -/

theorem forEachPlayer_pair {α : Type} (f : Player α → Player α) (ps : List (Player α))
    (i j : Nat) (pi pj : Player α) (hi : ps[i]? = some pi) (hj : ps[j]? = some pj)
    (hij : i ≠ j) :
    ∃ ps1, forEachPlayer f [some i, some j] ps = .ok ps1 ∧
      ps1[i]? = some (f pi) ∧ ps1[j]? = some (f pj) ∧
      ∀ k, k ≠ i → k ≠ j → ps1[k]? = ps[k]? := by
  have hi1 := (List.getElem?_eq_some_iff.1 hi).1
  have hj1 := (List.getElem?_eq_some_iff.1 hj).1
  have hj2 : (ps.set i (f pi))[j]? = some pj := by
    rw [List.getElem?_set_ne hij]; exact hj
  refine ⟨(ps.set i (f pi)).set j (f pj), ?_, ?_, ?_, ?_⟩
  · simp [forEachPlayer, hi, hj2]
  · rw [List.getElem?_set_ne (Ne.symm hij)]; simp [hi1]
  · simp [hj1]
  · intro k hki hkj
    rw [List.getElem?_set_ne (Ne.symm hkj), List.getElem?_set_ne (Ne.symm hki)]

theorem recordMatch_rating {α : Type} (p : Player α) (result : String) :
    (p.recordMatch result).rating = p.rating := by
  unfold Player.recordMatch; split <;> rfl

section Proofs
variable {α : Type} [LinearOrderedField α]

theorem updateRatings_pair (B : Builtins α) (ps : List (Player α)) (a0 a1 b0 b1 : Nat)
    (pa0 pa1 pb0 pb1 : Player α) (result : String) (kFactor sA sB : α)
    (ha0 : ps[a0]? = some pa0) (ha1 : ps[a1]? = some pa1)
    (hb0 : ps[b0]? = some pb0) (hb1 : ps[b1]? = some pb1)
    (h01 : a0 ≠ a1) (h02 : a0 ≠ b0) (h03 : a0 ≠ b1) (h12 : a1 ≠ b0) (h13 : a1 ≠ b1)
    (h23 : b0 ≠ b1) :
    ∃ ps1, updateRatingsForDoubles B [some a0, some a1] [some b0, some b1] result kFactor
        sA sB ps = .ok ps1 ∧
      ps1[a0]? = some { pa0 with rating := pa0.rating + kFactor * (1 + |sA - sB| / 21) *
          ((if result = "winA" then 1 else 0) - 1 / (1 + B.pow10
            (((pb0.rating + pb1.rating) / 2 - (pa0.rating + pa1.rating) / 2) / 400))) } ∧
      ps1[a1]? = some { pa1 with rating := pa1.rating + kFactor * (1 + |sA - sB| / 21) *
          ((if result = "winA" then 1 else 0) - 1 / (1 + B.pow10
            (((pb0.rating + pb1.rating) / 2 - (pa0.rating + pa1.rating) / 2) / 400))) } ∧
      ps1[b0]? = some { pb0 with rating := pb0.rating + kFactor * (1 + |sA - sB| / 21) *
          ((if result = "winB" then 1 else 0) - 1 / (1 + B.pow10
            (((pa0.rating + pa1.rating) / 2 - (pb0.rating + pb1.rating) / 2) / 400))) } ∧
      ps1[b1]? = some { pb1 with rating := pb1.rating + kFactor * (1 + |sA - sB| / 21) *
          ((if result = "winB" then 1 else 0) - 1 / (1 + B.pow10
            (((pa0.rating + pa1.rating) / 2 - (pb0.rating + pb1.rating) / 2) / 400))) } ∧
      ∀ k, k ≠ a0 → k ≠ a1 → k ≠ b0 → k ≠ b1 → ps1[k]? = ps[k]? := by
  have m0 : memberRating ps [some a0, some a1] 0 = some pa0.rating := by
    simp [memberRating, ha0]
  have m1 : memberRating ps [some a0, some a1] 1 = some pa1.rating := by
    simp [memberRating, ha1]
  have m2 : memberRating ps [some b0, some b1] 0 = some pb0.rating := by
    simp [memberRating, hb0]
  have m3 : memberRating ps [some b0, some b1] 1 = some pb1.rating := by
    simp [memberRating, hb1]
  obtain ⟨q3, e3, q3a0, q3a1, q3o⟩ :=
    forEachPlayer_pair (fun player : Player α => { player with rating := player.rating +
        kFactor * (1 + |sA - sB| / 21) * ((if result = "winA" then 1 else 0) - 1 / (1 + B.pow10
          (((pb0.rating + pb1.rating) / 2 - (pa0.rating + pa1.rating) / 2) / 400))) })
      ps a0 a1 _ _ ha0 ha1 h01
  have q3b0 : q3[b0]? = some pb0 := by
    rw [q3o b0 (Ne.symm h02) (Ne.symm h12)]; exact hb0
  have q3b1 : q3[b1]? = some pb1 := by
    rw [q3o b1 (Ne.symm h03) (Ne.symm h13)]; exact hb1
  obtain ⟨q4, e4, q4b0, q4b1, q4o⟩ :=
    forEachPlayer_pair (fun player : Player α => { player with rating := player.rating +
        kFactor * (1 + |sA - sB| / 21) * ((if result = "winB" then 1 else 0) - 1 / (1 + B.pow10
          (((pa0.rating + pa1.rating) / 2 - (pb0.rating + pb1.rating) / 2) / 400))) })
      q3 b0 b1 _ _ q3b0 q3b1 h23
  refine ⟨q4, ?_, ?_, ?_, q4b0, q4b1, ?_⟩
  · simp only [updateRatingsForDoubles, m0, m1, m2, m3]
    rw [e3]
    simp only [Outcome.andThen]
    rw [e4]
  · rw [q4o a0 h02 h03, q3a0]
  · rw [q4o a1 h12 h13, q3a1]
  · intro k k0 k1 k2 k3
    rw [q4o k k2 k3, q3o k k0 k1]


/-- A doubles match between four distinct resolved players runs to completion,
and leaves each of them with the tally and the rating given here. -/
theorem play_doubles (B : Builtins α) (ps : List (Player α)) (a0 a1 b0 b1 : Nat)
    (pa0 pa1 pb0 pb1 : Player α) (sA sB : α)
    (ha0 : ps[a0]? = some pa0) (ha1 : ps[a1]? = some pa1)
    (hb0 : ps[b0]? = some pb0) (hb1 : ps[b1]? = some pb1)
    (hd : [a0, a1, b0, b1].Nodup) :
    ∃ ps1, (Match.new [some a0, some a1] [some b0, some b1] sA sB).play B ps = .ok ps1 ∧
      ps1[a0]? = some { pa0.recordMatch (if sA > sB then "win" else "lose") with
        rating := pa0.rating + 32 * (1 + |sA - sB| / 21) *
          ((if sA > sB then 1 else 0) - 1 / (1 + B.pow10
            (((pb0.rating + pb1.rating) / 2 - (pa0.rating + pa1.rating) / 2) / 400))) } ∧
      ps1[a1]? = some { pa1.recordMatch (if sA > sB then "win" else "lose") with
        rating := pa1.rating + 32 * (1 + |sA - sB| / 21) *
          ((if sA > sB then 1 else 0) - 1 / (1 + B.pow10
            (((pb0.rating + pb1.rating) / 2 - (pa0.rating + pa1.rating) / 2) / 400))) } ∧
      ps1[b0]? = some { pb0.recordMatch (if sA > sB then "lose" else "win") with
        rating := pb0.rating + 32 * (1 + |sA - sB| / 21) *
          ((if sA > sB then 0 else 1) - 1 / (1 + B.pow10
            (((pa0.rating + pa1.rating) / 2 - (pb0.rating + pb1.rating) / 2) / 400))) } ∧
      ps1[b1]? = some { pb1.recordMatch (if sA > sB then "lose" else "win") with
        rating := pb1.rating + 32 * (1 + |sA - sB| / 21) *
          ((if sA > sB then 0 else 1) - 1 / (1 + B.pow10
            (((pa0.rating + pa1.rating) / 2 - (pb0.rating + pb1.rating) / 2) / 400))) } ∧
      ∀ k, k ≠ a0 → k ≠ a1 → k ≠ b0 → k ≠ b1 → ps1[k]? = ps[k]? := by
  simp only [List.nodup_cons, List.mem_cons, List.mem_singleton, not_or, List.not_mem_nil,
    not_false_eq_true, List.nodup_nil, and_true] at hd
  obtain ⟨⟨h01, h02, h03⟩, ⟨h12, h13⟩, h23⟩ := hd
  have hAB : ("winA" : String) ≠ "winB" := by decide
  have hBA : ("winB" : String) ≠ "winA" := by decide
  by_cases h : sA > sB
  · obtain ⟨q1, e1, q1a0, q1a1, q1o⟩ :=
      forEachPlayer_pair (fun player => player.recordMatch "win") ps a0 a1 pa0 pa1 ha0 ha1 h01
    have q1b0 : q1[b0]? = some pb0 := by rw [q1o b0 (Ne.symm h02) (Ne.symm h12)]; exact hb0
    have q1b1 : q1[b1]? = some pb1 := by rw [q1o b1 (Ne.symm h03) (Ne.symm h13)]; exact hb1
    obtain ⟨q2, e2, q2b0, q2b1, q2o⟩ :=
      forEachPlayer_pair (fun player => player.recordMatch "lose") q1 b0 b1 pb0 pb1 q1b0 q1b1 h23
    have q2a0 : q2[a0]? = some (pa0.recordMatch "win") := by rw [q2o a0 h02 h03]; exact q1a0
    have q2a1 : q2[a1]? = some (pa1.recordMatch "win") := by rw [q2o a1 h12 h13]; exact q1a1
    obtain ⟨q4, e4, q4a0, q4a1, q4b0, q4b1, q4o⟩ :=
      updateRatings_pair B q2 a0 a1 b0 b1 _ _ _ _ "winA" 32 sA sB q2a0 q2a1 q2b0 q2b1
        h01 h02 h03 h12 h13 h23
    simp only [recordMatch_rating, if_pos rfl, if_neg hAB] at q4a0 q4a1 q4b0 q4b1
    refine ⟨q4, ?_, ?_, ?_, ?_, ?_, ?_⟩
    · simp only [Match.play, Match.new, if_pos h, e1, e2, Outcome.andThen, e4]
    · simp only [if_pos h]; exact q4a0
    · simp only [if_pos h]; exact q4a1
    · simp only [if_pos h]; exact q4b0
    · simp only [if_pos h]; exact q4b1
    · intro k k0 k1 k2 k3
      rw [q4o k k0 k1 k2 k3, q2o k k2 k3, q1o k k0 k1]
  · obtain ⟨q1, e1, q1b0, q1b1, q1o⟩ :=
      forEachPlayer_pair (fun player => player.recordMatch "win") ps b0 b1 pb0 pb1 hb0 hb1 h23
    have q1a0 : q1[a0]? = some pa0 := by rw [q1o a0 h02 h03]; exact ha0
    have q1a1 : q1[a1]? = some pa1 := by rw [q1o a1 h12 h13]; exact ha1
    obtain ⟨q2, e2, q2a0, q2a1, q2o⟩ :=
      forEachPlayer_pair (fun player => player.recordMatch "lose") q1 a0 a1 pa0 pa1 q1a0 q1a1 h01
    have q2b0 : q2[b0]? = some (pb0.recordMatch "win") := by
      rw [q2o b0 (Ne.symm h02) (Ne.symm h12)]; exact q1b0
    have q2b1 : q2[b1]? = some (pb1.recordMatch "win") := by
      rw [q2o b1 (Ne.symm h03) (Ne.symm h13)]; exact q1b1
    obtain ⟨q4, e4, q4a0, q4a1, q4b0, q4b1, q4o⟩ :=
      updateRatings_pair B q2 a0 a1 b0 b1 _ _ _ _ "winB" 32 sA sB q2a0 q2a1 q2b0 q2b1
        h01 h02 h03 h12 h13 h23
    simp only [recordMatch_rating, if_pos rfl, if_neg hBA] at q4a0 q4a1 q4b0 q4b1
    refine ⟨q4, ?_, ?_, ?_, ?_, ?_, ?_⟩
    · simp only [Match.play, Match.new, if_neg h, e1, e2, Outcome.andThen, e4]
    · simp only [if_neg h]; exact q4a0
    · simp only [if_neg h]; exact q4a1
    · simp only [if_neg h]; exact q4b0
    · simp only [if_neg h]; exact q4b1
    · intro k k0 k1 k2 k3
      rw [q4o k k0 k1 k2 k3, q2o k k0 k1, q1o k k2 k3]

/-- C5: in a doubles match between four distinct resolved players with
different scores, every member of a team ends with the rating
`old + 32 * (1 + |sA - sB| / 21) * (actual - expected)`, where `actual` is 1
for the team with the strictly greater score and 0 for the other, and
`expected = 1 / (1 + 10 ^ ((meanOpp - meanOwn) / 400))` is taken on the means
of the pre-match ratings. -/
theorem play_doubles_rating_formula (B : Builtins α) (ps : List (Player α))
    (a0 a1 b0 b1 : Nat) (pa0 pa1 pb0 pb1 : Player α) (sA sB : α)
    (ha0 : ps[a0]? = some pa0) (ha1 : ps[a1]? = some pa1)
    (hb0 : ps[b0]? = some pb0) (hb1 : ps[b1]? = some pb1)
    (hd : [a0, a1, b0, b1].Nodup) (hs : sA ≠ sB) :
    ∃ ps1, (Match.new [some a0, some a1] [some b0, some b1] sA sB).play B ps = .ok ps1 ∧
      (ps1[a0]?).map (fun p => p.rating) = some (pa0.rating + 32 * (1 + |sA - sB| / 21) *
        ((if sA > sB then 1 else 0) - 1 / (1 + B.pow10
          (((pb0.rating + pb1.rating) / 2 - (pa0.rating + pa1.rating) / 2) / 400)))) ∧
      (ps1[a1]?).map (fun p => p.rating) = some (pa1.rating + 32 * (1 + |sA - sB| / 21) *
        ((if sA > sB then 1 else 0) - 1 / (1 + B.pow10
          (((pb0.rating + pb1.rating) / 2 - (pa0.rating + pa1.rating) / 2) / 400)))) ∧
      (ps1[b0]?).map (fun p => p.rating) = some (pb0.rating + 32 * (1 + |sA - sB| / 21) *
        ((if sB > sA then 1 else 0) - 1 / (1 + B.pow10
          (((pa0.rating + pa1.rating) / 2 - (pb0.rating + pb1.rating) / 2) / 400)))) ∧
      (ps1[b1]?).map (fun p => p.rating) = some (pb1.rating + 32 * (1 + |sA - sB| / 21) *
        ((if sB > sA then 1 else 0) - 1 / (1 + B.pow10
          (((pa0.rating + pa1.rating) / 2 - (pb0.rating + pb1.rating) / 2) / 400)))) := by
  obtain ⟨ps1, e, r0, r1, r2, r3, -⟩ :=
    play_doubles B ps a0 a1 b0 b1 pa0 pa1 pb0 pb1 sA sB ha0 ha1 hb0 hb1 hd
  have hflip : (if sB > sA then (1 : α) else 0) = if sA > sB then 0 else 1 := by
    rcases lt_or_gt_of_ne hs with h | h
    · rw [if_pos h, if_neg (not_lt.2 (le_of_lt h))]
    · rw [if_neg (not_lt.2 (le_of_lt h)), if_pos h]
  refine ⟨ps1, e, ?_, ?_, ?_, ?_⟩
  · rw [r0]; rfl
  · rw [r1]; rfl
  · rw [r2, hflip]; rfl
  · rw [r3, hflip]; rfl

/-- The rating formula of C5 at a match between players rated 1700, 1700, 1300
and 1300 that ends 21 to 0: the winners gain `64 / 11`, the losers lose it. -/
theorem play_doubles_rating_formula_witness :
    ∃ ps1, (Match.new [some 0, some 1] [some 2, some 3] (21 : ℚ) 0).play stdBuiltins
        [samplePlayer "Al" 1700, samplePlayer "Bo" 1700, samplePlayer "Cy" 1300,
          samplePlayer "Di" 1300] = .ok ps1 ∧
      (ps1[0]?).map (fun p => p.rating) = some (1700 + 64 / 11) ∧
      (ps1[1]?).map (fun p => p.rating) = some (1700 + 64 / 11) ∧
      (ps1[2]?).map (fun p => p.rating) = some (1300 - 64 / 11) ∧
      (ps1[3]?).map (fun p => p.rating) = some (1300 - 64 / 11) := by
  have hneg : pow10Q (-1) = 1 / 10 := by
    have : ⌊(-1 : ℚ)⌋ = -1 := by norm_num
    simp [pow10Q, this]
  have hpos : pow10Q 1 = 10 := by simp [pow10Q]
  obtain ⟨ps1, e, r0, r1, r2, r3⟩ := play_doubles_rating_formula stdBuiltins
    [samplePlayer "Al" 1700, samplePlayer "Bo" 1700, samplePlayer "Cy" 1300,
      samplePlayer "Di" 1300] 0 1 2 3 _ _ _ _ 21 0 rfl rfl rfl rfl (by decide) (by norm_num)
  refine ⟨ps1, e, ?_, ?_, ?_, ?_⟩
  · rw [r0]; norm_num [samplePlayer, stdBuiltins, hneg]
  · rw [r1]; norm_num [samplePlayer, stdBuiltins, hneg]
  · rw [r2]; norm_num [samplePlayer, stdBuiltins, hpos]
  · rw [r3]; norm_num [samplePlayer, stdBuiltins, hpos]

/-- C4: in a doubles match between four distinct resolved players, the two
members of team A change rating by the same amount, and so do the two members
of team B, whatever the four pre-match ratings and the scores are. -/
theorem play_doubles_same_delta (B : Builtins α) (ps : List (Player α))
    (a0 a1 b0 b1 : Nat) (pa0 pa1 pb0 pb1 : Player α) (sA sB : α)
    (ha0 : ps[a0]? = some pa0) (ha1 : ps[a1]? = some pa1)
    (hb0 : ps[b0]? = some pb0) (hb1 : ps[b1]? = some pb1)
    (hd : [a0, a1, b0, b1].Nodup) :
    ∃ ps1 qa0 qa1 qb0 qb1,
      (Match.new [some a0, some a1] [some b0, some b1] sA sB).play B ps = .ok ps1 ∧
      ps1[a0]? = some qa0 ∧ ps1[a1]? = some qa1 ∧
      ps1[b0]? = some qb0 ∧ ps1[b1]? = some qb1 ∧
      qa0.rating - pa0.rating = qa1.rating - pa1.rating ∧
      qb0.rating - pb0.rating = qb1.rating - pb1.rating := by
  obtain ⟨ps1, e, r0, r1, r2, r3, -⟩ :=
    play_doubles B ps a0 a1 b0 b1 pa0 pa1 pb0 pb1 sA sB ha0 ha1 hb0 hb1 hd
  refine ⟨ps1, _, _, _, _, e, r0, r1, r2, r3, ?_, ?_⟩
  · simp only [add_sub_cancel_left]
  · simp only [add_sub_cancel_left]

/-- The statement of C4 at a match between players rated 1800, 1400, 1550 and
1450 that ends 21 to 15. -/
theorem play_doubles_same_delta_witness :
    [0, 1, 2, 3].Nodup ∧
    ∃ ps1 qa0 qa1 qb0 qb1,
      (Match.new [some 0, some 1] [some 2, some 3] (21 : ℚ) 15).play stdBuiltins
        [samplePlayer "Al" 1800, samplePlayer "Bo" 1400, samplePlayer "Cy" 1550,
          samplePlayer "Di" 1450] = .ok ps1 ∧
      ps1[0]? = some qa0 ∧ ps1[1]? = some qa1 ∧
      ps1[2]? = some qb0 ∧ ps1[3]? = some qb1 ∧
      qa0.rating - (samplePlayer "Al" 1800).rating = qa1.rating - (samplePlayer "Bo" 1400).rating ∧
      qb0.rating - (samplePlayer "Cy" 1550).rating = qb1.rating - (samplePlayer "Di" 1450).rating :=
  ⟨by decide, play_doubles_same_delta stdBuiltins _ 0 1 2 3 _ _ _ _ 21 15 rfl rfl rfl rfl
    (by decide)⟩

/-- C1, as stated, fails: in a match of one player against one player with
equal ratings that ends 21 to 0, `play` tallies the win and the loss but
leaves both ratings at 1500, since `updateRatingsForDoubles` reads
`teamA[1].rating` and the error is caught. -/
theorem play_singles_rating_unchanged :
    ∃ ps1, (Match.new [some 0] [some 1] (21 : ℚ) 0).play stdBuiltins
        [samplePlayer "Al" 1500, samplePlayer "Bo" 1500] = .ok ps1 ∧
      ps1.map (fun p => (p.rating, p.wins, p.losses)) = [(1500, 1, 0), (1500, 0, 1)] ∧
      ps1.map (fun p => p.rating) ≠ [1500 + 32, 1500 - 32] := by
  refine ⟨[(samplePlayer "Al" 1500).recordMatch "win",
    (samplePlayer "Bo" 1500).recordMatch "lose"], by decide, by decide, ?_⟩
  intro h
  have h1 : ([(samplePlayer "Al" 1500).recordMatch "win",
    (samplePlayer "Bo" 1500).recordMatch "lose"].map (fun p => p.rating)) = [1500, 1500] := by
    decide
  rw [h1] at h
  norm_num at h

/-- C1, amended: in a doubles match between four distinct resolved players
whose teams have equal rating sums (equal means) and whose scores differ, every
member of the winning team gains `32 * (1 + |sA - sB| / 21) * (1 / 2)` and
every member of the losing team loses as much; at 21 to 0 that is exactly 32. -/
theorem play_doubles_equal_means (B : Builtins α) (ps : List (Player α))
    (a0 a1 b0 b1 : Nat) (pa0 pa1 pb0 pb1 : Player α) (sA sB : α)
    (ha0 : ps[a0]? = some pa0) (ha1 : ps[a1]? = some pa1)
    (hb0 : ps[b0]? = some pb0) (hb1 : ps[b1]? = some pb1)
    (hd : [a0, a1, b0, b1].Nodup) (hpow : B.pow10 0 = 1)
    (hmean : pa0.rating + pa1.rating = pb0.rating + pb1.rating) (hs : sA ≠ sB) :
    ∃ ps1 d, (Match.new [some a0, some a1] [some b0, some b1] sA sB).play B ps = .ok ps1 ∧
      d = 32 * (1 + |sA - sB| / 21) * (1 / 2) ∧
      (sA = 21 → sB = 0 → d = 32) ∧
      (ps1[a0]?).map (fun p => p.rating) = some (pa0.rating + if sA > sB then d else -d) ∧
      (ps1[a1]?).map (fun p => p.rating) = some (pa1.rating + if sA > sB then d else -d) ∧
      (ps1[b0]?).map (fun p => p.rating) = some (pb0.rating + if sB > sA then d else -d) ∧
      (ps1[b1]?).map (fun p => p.rating) = some (pb1.rating + if sB > sA then d else -d) := by
  obtain ⟨ps1, e, r0, r1, r2, r3, -⟩ :=
    play_doubles B ps a0 a1 b0 b1 pa0 pa1 pb0 pb1 sA sB ha0 ha1 hb0 hb1 hd
  have hexp : ∀ x y : α, x = y → 1 / (1 + B.pow10 ((x / 2 - y / 2) / 400)) = 1 / 2 := by
    intro x y hxy
    rw [hxy, sub_self, zero_div, hpow]
    norm_num
  refine ⟨ps1, _, e, rfl, ?_, ?_, ?_, ?_, ?_⟩
  · intro h21 h0
    rw [h21, h0]
    norm_num
  · rw [r0, hexp _ _ hmean.symm]
    by_cases h : sA > sB
    · simp only [if_pos h, Option.map_some']; congr 1; ring
    · simp only [if_neg h, Option.map_some']; congr 1; ring
  · rw [r1, hexp _ _ hmean.symm]
    by_cases h : sA > sB
    · simp only [if_pos h, Option.map_some']; congr 1; ring
    · simp only [if_neg h, Option.map_some']; congr 1; ring
  · rw [r2, hexp _ _ hmean]
    rcases lt_or_gt_of_ne hs with h | h
    · simp only [if_pos h, if_neg (not_lt.2 (le_of_lt h)), Option.map_some']; congr 1; ring
    · simp only [if_pos h, if_neg (not_lt.2 (le_of_lt h)), Option.map_some']; congr 1; ring
  · rw [r3, hexp _ _ hmean]
    rcases lt_or_gt_of_ne hs with h | h
    · simp only [if_pos h, if_neg (not_lt.2 (le_of_lt h)), Option.map_some']; congr 1; ring
    · simp only [if_pos h, if_neg (not_lt.2 (le_of_lt h)), Option.map_some']; congr 1; ring

/-- The amended C1 at a match between players rated 1600 and 1400 against 1500
and 1500 that ends 21 to 0: the winners gain 32, the losers lose 32. -/
theorem play_doubles_equal_means_witness :
    ∃ ps1, (Match.new [some 0, some 1] [some 2, some 3] (21 : ℚ) 0).play stdBuiltins
        [samplePlayer "Al" 1600, samplePlayer "Bo" 1400, samplePlayer "Cy" 1500,
          samplePlayer "Di" 1500] = .ok ps1 ∧
      (ps1[0]?).map (fun p => p.rating) = some (1600 + 32) ∧
      (ps1[1]?).map (fun p => p.rating) = some (1400 + 32) ∧
      (ps1[2]?).map (fun p => p.rating) = some (1500 - 32) ∧
      (ps1[3]?).map (fun p => p.rating) = some (1500 - 32) := by
  obtain ⟨ps1, d, e, -, hd, r0, r1, r2, r3⟩ := play_doubles_equal_means stdBuiltins
    [samplePlayer "Al" 1600, samplePlayer "Bo" 1400, samplePlayer "Cy" 1500,
      samplePlayer "Di" 1500] 0 1 2 3 _ _ _ _ 21 0 rfl rfl rfl rfl (by decide)
    (by simp [stdBuiltins, pow10Q]) (by norm_num [samplePlayer]) (by norm_num)
  rw [hd rfl rfl] at r0 r1 r2 r3
  refine ⟨ps1, e, ?_, ?_, ?_, ?_⟩
  · rw [r0]; norm_num [samplePlayer]
  · rw [r1]; norm_num [samplePlayer]
  · rw [r2]; norm_num [samplePlayer]
  · rw [r3]; norm_num [samplePlayer]

/-- C2 fails on the code: with `Zed` absent from the roster and named first in
team A, `addMatch` raises (the `catch` block of `play` reads `teamA[0].name`)
and the match log is not extended. -/
theorem addMatch_unresolved_captain_raises :
    fourPlayers.addMatch stdBuiltins ["Zed".toList, "Al".toList]
        ["Bo".toList, "Cy".toList] 21 10 = .threw fourPlayers ∧
      (fourPlayers.addMatch stdBuiltins ["Zed".toList, "Al".toList]
        ["Bo".toList, "Cy".toList] 21 10).state.matches_.length
        = fourPlayers.matches_.length := by
  decide

/-- C7 fails on the code: a name that starts with U+200B followed by a space
is stored as `" Al"`, and looking the same name up afterwards finds no player. -/
theorem getPlayerByName_misses_added_name :
    ((Tournament.new : Tournament ℚ).addPlayer stdBuiltins
        zeroWidthName 1500 none).players.map (fun p => p.name) = [" Al".toList] ∧
      ((Tournament.new : Tournament ℚ).addPlayer stdBuiltins
        zeroWidthName 1500 none).getPlayerByName stdBuiltins zeroWidthName = none := by
  decide

/-- C8 fails on the code: a player added with the initial rating 1650 has the
rating 1650 and a history whose first record is `(1500, null)`. -/
theorem addPlayer_history_starts_at_1500 :
    ((Tournament.new : Tournament ℚ).addPlayer stdBuiltins "Mirza".toList 1650
        none).players.map (fun p => (p.rating, p.ratingHistory.head?))
      = [(1650, some { rating := 1500, event := none })] := by
  decide

/-- The loop `forEach` keeps every property of players that its body keeps,
whether it completes or raises. -/
theorem forEachPlayer_preserves {β : Type} (P : Player β → Prop) (f : Player β → Player β)
    (hf : ∀ p, P p → P (f p)) (team : List (Option Nat)) (ps : List (Player β))
    (h : ∀ p ∈ ps, P p) : ∀ p ∈ (forEachPlayer f team ps).state, P p := by
  induction team generalizing ps with
  | nil => simpa [forEachPlayer, Outcome.state] using h
  | cons r rest ih =>
    cases r with
    | none => simpa [forEachPlayer, Outcome.state] using h
    | some i =>
      cases hi : ps[i]? with
      | none => simpa [forEachPlayer, hi, Outcome.state] using h
      | some q =>
        simp only [forEachPlayer, hi]
        apply ih
        intro p hp
        rcases List.mem_or_eq_of_mem_set hp with hp1 | hp1
        · exact h p hp1
        · rw [hp1]
          exact hf q (h q (List.getElem?_mem hi))

/-- Sequencing keeps a property of the state that both parts keep. -/
theorem andThen_preserves {σ : Type} (P : σ → Prop) (o : Outcome σ) (g : σ → Outcome σ)
    (ho : P o.state) (hg : ∀ s, P s → P (g s).state) : P (o.andThen g).state := by
  cases o with
  | ok s => exact hg s ho
  | threw s => exact ho

theorem updateRatings_preserves (P : Player α → Prop)
    (hrate : ∀ (p : Player α) (r : α), P p → P { p with rating := r })
    (B : Builtins α) (teamA teamB : List (Option Nat)) (result : String)
    (kFactor sA sB : α) (ps : List (Player α)) (h : ∀ p ∈ ps, P p) :
    ∀ p ∈ (updateRatingsForDoubles B teamA teamB result kFactor sA sB ps).state, P p := by
  unfold updateRatingsForDoubles
  split
  · apply andThen_preserves (fun s : List (Player α) => ∀ p ∈ s, P p)
    · exact forEachPlayer_preserves P _ (fun p hp => hrate p _ hp) _ _ h
    · intro s hs
      exact forEachPlayer_preserves P _ (fun p hp => hrate p _ hp) _ _ hs
  · exact h

theorem play_state (B : Builtins α) (m : Match α) (ps : List (Player α)) :
    (m.play B ps).state =
      (if m.scoreA > m.scoreB then
        ((forEachPlayer (fun player => player.recordMatch "win") m.teamA ps).andThen
          (forEachPlayer (fun player => player.recordMatch "lose") m.teamB)).andThen
          (updateRatingsForDoubles B m.teamA m.teamB "winA" 32 m.scoreA m.scoreB)
      else
        ((forEachPlayer (fun player => player.recordMatch "win") m.teamB ps).andThen
          (forEachPlayer (fun player => player.recordMatch "lose") m.teamA)).andThen
          (updateRatingsForDoubles B m.teamA m.teamB "winB" 32 m.scoreA m.scoreB)).state := by
  unfold Match.play
  simp only
  split
  · next h => rw [h]
  · next ps1 h =>
    rw [h]
    split <;> rfl

theorem play_preserves (P : Player α → Prop)
    (hrec : ∀ (p : Player α) (result : String), P p → P (p.recordMatch result))
    (hrate : ∀ (p : Player α) (r : α), P p → P { p with rating := r })
    (B : Builtins α) (m : Match α) (ps : List (Player α)) (h : ∀ p ∈ ps, P p) :
    ∀ p ∈ (m.play B ps).state, P p := by
  rw [play_state]
  split
  · apply andThen_preserves (fun s : List (Player α) => ∀ p ∈ s, P p)
    · apply andThen_preserves (fun s : List (Player α) => ∀ p ∈ s, P p)
      · exact forEachPlayer_preserves P _ (fun p hp => hrec p _ hp) _ _ h
      · intro s hs
        exact forEachPlayer_preserves P _ (fun p hp => hrec p _ hp) _ _ hs
    · intro s hs
      exact updateRatings_preserves P hrate B _ _ _ _ _ _ s hs
  · apply andThen_preserves (fun s : List (Player α) => ∀ p ∈ s, P p)
    · apply andThen_preserves (fun s : List (Player α) => ∀ p ∈ s, P p)
      · exact forEachPlayer_preserves P _ (fun p hp => hrec p _ hp) _ _ h
      · intro s hs
        exact forEachPlayer_preserves P _ (fun p hp => hrec p _ hp) _ _ hs
    · intro s hs
      exact updateRatings_preserves P hrate B _ _ _ _ _ _ s hs

theorem addMatch_players (B : Builtins α) (t : Tournament α)
    (teamAPlayers teamBPlayers : List JSString) (sA sB : α) :
    (t.addMatch B teamAPlayers teamBPlayers sA sB).state.players =
      ((Match.new (teamAPlayers.map (fun n => t.getPlayerByName B n))
        (teamBPlayers.map (fun n => t.getPlayerByName B n)) sA sB).play B t.players).state := by
  unfold Tournament.addMatch
  simp only
  split
  · next ps h => rw [h]; rfl
  · next ps h => rw [h]; rfl

theorem addPlayer_preserves (P : Player α → Prop)
    (hnew : ∀ (n : JSString) (g : Option JSString) (r : α),
      P { (Player.new n g : Player α) with rating := r })
    (hgender : ∀ (p : Player α) (g : Option JSString), P p → P { p with gender := g })
    (B : Builtins α) (t : Tournament α) (n : JSString) (r : α) (g : Option JSString)
    (h : ∀ p ∈ t.players, P p) : ∀ p ∈ (t.addPlayer B n r g).players, P p := by
  unfold Tournament.addPlayer
  simp only
  split
  · intro p hp
    rcases List.mem_append.1 hp with hp1 | hp1
    · exact h p hp1
    · rw [List.mem_singleton.1 hp1]; exact hnew _ _ _
  · next i q hq =>
    split
    · intro p hp
      rcases List.mem_or_eq_of_mem_set hp with hp1 | hp1
      · exact h p hp1
      · rw [hp1]
        apply hgender
        apply h
        cases hn : t.getPlayerByName B (removeInvisibleCharacters (trim n)) with
        | none => simp [hn] at hq
        | some j =>
          simp only [hn, Option.some_bind, Option.map_eq_some'] at hq
          obtain ⟨a, ha, hpair⟩ := hq
          have : a = q := congrArg Prod.snd hpair
          rw [← this]
          exact List.getElem?_mem ha
    · exact h

/-- C3: after any sequence of `addPlayer` and `addMatch` calls on a new
tournament, matches that raise or fail part-way included, every player of the
roster has `matchesPlayed = wins + losses`. -/
theorem matchesPlayed_eq_wins_add_losses (B : Builtins α) (calls : List (Call α))
    (p : Player α) (hp : p ∈ ((Tournament.new : Tournament α).run B calls).players) :
    p.matchesPlayed = p.wins + p.losses := by
  have key : ∀ (cs : List (Call α)) (t : Tournament α),
      (∀ q ∈ t.players, q.matchesPlayed = q.wins + q.losses) →
      ∀ q ∈ (t.run B cs).players, q.matchesPlayed = q.wins + q.losses := by
    intro cs
    induction cs with
    | nil => intro t ht; simpa [Tournament.run] using ht
    | cons c cs ih =>
      intro t ht
      simp only [Tournament.run, List.foldl_cons]
      apply ih
      cases c with
      | addPlayer n r g =>
        simp only [Tournament.call, Outcome.state]
        apply addPlayer_preserves (fun q : Player α => q.matchesPlayed = q.wins + q.losses)
          _ _ B t n r g ht
        · intro n g r; rfl
        · intro q g hq; exact hq
      | addMatch a b sA sB =>
        simp only [Tournament.call]
        rw [addMatch_players]
        apply play_preserves (fun q : Player α => q.matchesPlayed = q.wins + q.losses)
          _ _ B _ _ ht
        · intro q result hq
          unfold Player.recordMatch
          split
          · show q.matchesPlayed + 1 = q.wins + 1 + q.losses
            omega
          · show q.matchesPlayed + 1 = q.wins + (q.losses + 1)
            omega
        · intro q r hq; exact hq
  exact key calls Tournament.new (by simp [Tournament.new]) p hp

/-- The invariant of C3 at the player `Al` after a match whose second team-A
name is not in the roster: the win of `Al` is tallied before the error. -/
theorem matchesPlayed_eq_wins_add_losses_witness :
    (samplePlayer "Al" 1500).recordMatch "win" ∈
        ((Tournament.new : Tournament ℚ).run stdBuiltins partlyFailingCalls).players ∧
      ((samplePlayer "Al" 1500).recordMatch "win").matchesPlayed =
        ((samplePlayer "Al" 1500).recordMatch "win").wins +
          ((samplePlayer "Al" 1500).recordMatch "win").losses :=
  ⟨by decide, matchesPlayed_eq_wins_add_losses stdBuiltins partlyFailingCalls _ (by decide)⟩

/-- C9: on a player whose history is not empty, `recordEventRating(e1)` with a
non-null marker appends `(rating, e1)` exactly when the rating differs from
the last record or the last record has no event, and a second call
`recordEventRating(e2)` right after it, with any marker, changes nothing. -/
theorem recordEventRating_twice (p : Player α) (e1 e2 : Option Nat)
    (lastRecord : RatingRecord α) (hlast : p.ratingHistory.getLast? = some lastRecord)
    (h1 : e1 ≠ none) :
    ∃ p1, p.recordEventRating e1 = some p1 ∧
      p1.recordEventRating e2 = some p1 ∧
      p1.rating = p.rating ∧
      p1.ratingHistory =
        (if lastRecord.rating ≠ p.rating ∨ lastRecord.event = none then
          p.ratingHistory ++ [{ rating := p.rating, event := e1 }]
        else p.ratingHistory) := by
  by_cases hc : lastRecord.rating ≠ p.rating ∨ lastRecord.event = none
  · refine ⟨{ p with ratingHistory := p.ratingHistory ++ [{ rating := p.rating, event := e1 }] },
      ?_, ?_, rfl, ?_⟩
    · simp only [Player.recordEventRating, hlast, if_pos hc]
    · have hl : (p.ratingHistory ++ [({ rating := p.rating, event := e1 } : RatingRecord α)]).getLast?
          = some { rating := p.rating, event := e1 } := by simp
      simp only [Player.recordEventRating, hl]
      rw [if_neg]
      simp [h1]
    · rw [if_pos hc]
  · refine ⟨p, ?_, ?_, rfl, ?_⟩
    · simp only [Player.recordEventRating, hlast, if_neg hc]
    · simp only [Player.recordEventRating, hlast, if_neg hc]
    · rw [if_neg hc]

/-- The statement of C9 at a player rated 1532 whose history still is the
initial record: the first event appends `(1532, 7)`, the second nothing. -/
theorem recordEventRating_twice_witness :
    ∃ p1, (samplePlayer "Al" 1532).recordEventRating (some 7) = some p1 ∧
      p1.recordEventRating (some 14) = some p1 ∧
      p1.rating = 1532 ∧
      p1.ratingHistory = [{ rating := 1500, event := none }, { rating := 1532, event := some 7 }] := by
  obtain ⟨p1, e, e', hr, hh⟩ := recordEventRating_twice (samplePlayer "Al" 1532) (some 7)
    (some 14) { rating := 1500, event := none } rfl (by decide)
  refine ⟨p1, e, e', hr, ?_⟩
  rw [hh]
  decide

/-! ## Name normalisation -/

theorem trim_append_left (ws l : JSString) (h : ∀ c ∈ ws, isWhiteSpace c = true) :
    trim (ws ++ l) = trim l := by
  unfold trim
  rw [List.dropWhile_append_of_pos h]

theorem trim_concat (l : JSString) (c : Char) (h : isWhiteSpace c = true) :
    trim (l ++ [c]) = trim l := by
  unfold trim
  rw [List.dropWhile_append]
  split
  · next he =>
    have : l.dropWhile isWhiteSpace = [] := by simpa using he
    simp [this, h]
  · rw [List.rdropWhile_concat_pos _ _ _ h]

theorem trim_append_right (l ws : JSString) (h : ∀ c ∈ ws, isWhiteSpace c = true) :
    trim (l ++ ws) = trim l := by
  induction ws generalizing l with
  | nil => simp
  | cons c ws ih =>
    have : l ++ c :: ws = (l ++ [c]) ++ ws := by simp
    rw [this, ih _ (fun d hd => h d (List.mem_cons_of_mem _ hd)),
      trim_concat _ _ (h c (List.mem_cons_self _ _))]

theorem rdropWhile_append_rtakeWhile (p : Char → Bool) (l : JSString) :
    l.rdropWhile p ++ l.rtakeWhile p = l := by
  have h := congrArg List.reverse (List.takeWhile_append_dropWhile p l.reverse)
  rw [List.reverse_append, List.reverse_reverse] at h
  exact h

theorem trim_decompose (t : JSString) :
    t = t.takeWhile isWhiteSpace ++
      (trim t ++ (t.dropWhile isWhiteSpace).rtakeWhile isWhiteSpace) := by
  unfold trim
  rw [rdropWhile_append_rtakeWhile, List.takeWhile_append_dropWhile]

theorem trim_filter_trim (q : Char → Bool) (t : JSString) :
    trim ((trim t).filter q) = trim (t.filter q) := by
  conv_rhs => rw [trim_decompose t]
  rw [List.filter_append, List.filter_append, trim_append_left, trim_append_right]
  · intro c hc
    exact List.mem_rtakeWhile_imp (List.mem_of_mem_filter hc)
  · intro c hc
    exact List.mem_takeWhile_imp (List.mem_of_mem_filter hc)

theorem mem_of_mem_trim {c : Char} {s : JSString} (h : c ∈ trim s) : c ∈ s :=
  (List.dropWhile_sublist _).subset ((List.rdropWhile_prefix _ _).subset h)

theorem removeInvisible_trim_removeInvisible (s : JSString) :
    removeInvisibleCharacters (trim (removeInvisibleCharacters s)) =
      trim (removeInvisibleCharacters s) := by
  unfold removeInvisibleCharacters
  rw [List.filter_eq_self]
  intro c hc
  exact (List.mem_filter.1 (mem_of_mem_trim hc)).2

/-- The key under which `addPlayer` looks a name up is the name lower-cased,
stripped of zero-width characters and then trimmed, whenever `toLowerCase`
commutes with stripping and with trimming. -/
theorem lookupKey_stored {β : Type} (B : Builtins β)
    (hstrip : ∀ s, B.toLowerCase (removeInvisibleCharacters s) =
      removeInvisibleCharacters (B.toLowerCase s))
    (htrim : ∀ s, B.toLowerCase (trim s) = trim (B.toLowerCase s)) (n : JSString) :
    lookupKey B (removeInvisibleCharacters (trim n)) =
      trim (removeInvisibleCharacters (B.toLowerCase n)) := by
  unfold lookupKey
  rw [hstrip, htrim, removeInvisible_trim_removeInvisible]
  unfold removeInvisibleCharacters
  exact trim_filter_trim _ _

/-! ## The roster -/

theorem findRef_lt {β : Type} (key : JSString → Bool) (ps : List (Player β)) (i : Nat)
    (h : findRef key ps = some i) : i < ps.length := by
  induction ps generalizing i with
  | nil => simp [findRef] at h
  | cons p ps ih =>
    unfold findRef at h
    split at h
    · cases h; simp
    · cases hr : findRef key ps with
      | none => simp [hr] at h
      | some j =>
        simp only [hr, Option.map_some', Option.some.injEq] at h
        rw [← h]
        simpa using ih j hr

theorem findRef_names {β : Type} (key : JSString → Bool) (ps qs : List (Player β))
    (h : ps.map (fun p => p.name) = qs.map (fun p => p.name)) :
    findRef key ps = findRef key qs := by
  induction ps generalizing qs with
  | nil =>
    cases qs with
    | nil => rfl
    | cons q qs => simp at h
  | cons p ps ih =>
    cases qs with
    | nil => simp at h
    | cons q qs =>
      simp only [List.map_cons, List.cons.injEq] at h
      simp only [findRef, h.1, ih qs h.2]

theorem findRef_append_new {β : Type} (key : JSString → Bool) (ps : List (Player β))
    (q : Player β) (h : findRef key ps = none) (hq : key q.name = true) :
    findRef key (ps ++ [q]) = some ps.length := by
  induction ps with
  | nil => simp [findRef, hq]
  | cons p ps ih =>
    unfold findRef at h
    split at h
    · cases h
    · next hp =>
      have hn : findRef key ps = none := by
        cases hr : findRef key ps with
        | none => rfl
        | some j => simp [hr] at h
      simp [findRef, hp, ih hn]

theorem set_lookup_self {β : Type} (l : List β) (i : Nat) (a : β) (h : l[i]? = some a) :
    l.set i a = l := by
  apply List.ext_getElem?
  intro j
  by_cases hj : i = j
  · subst hj
    rw [List.getElem?_set_self (List.getElem?_eq_some_iff.1 h).1, h]
  · rw [List.getElem?_set_ne hj]

theorem set_gender_names {β : Type} (ps : List (Player β)) (i : Nat) (p : Player β)
    (g : Option JSString) (h : ps[i]? = some p) :
    (ps.set i { p with gender := g }).map (fun q => q.name) = ps.map (fun q => q.name) := by
  obtain ⟨hi, hp⟩ := List.getElem?_eq_some_iff.1 h
  rw [List.map_set]
  apply List.ext_getElem?
  intro j
  by_cases hj : i = j
  · subst hj
    simp [hi, ← hp]
  · rw [List.getElem?_set_ne hj]

/-- What `addPlayer` does when the name resolves to the player `p` at `i`: only
an undefined gender of `p` is filled in. -/
theorem addPlayer_found {β : Type} [LinearOrderedField β] (B : Builtins β)
    (t : Tournament β) (n : JSString) (r : β) (g : Option JSString) (i : Nat)
    (p : Player β)
    (hi : t.getPlayerByName B (removeInvisibleCharacters (trim n)) = some i)
    (hp : t.players[i]? = some p) :
    t.addPlayer B n r g =
      { t with players := t.players.set i
                 { p with gender := if p.gender = none then g else p.gender } } := by
  unfold Tournament.addPlayer
  simp only [hi, Option.some_bind, hp, Option.map_some']
  by_cases hc : p.gender = none ∧ g ≠ none
  · rw [if_pos hc, if_pos hc.1]
  · rw [if_neg hc]
    have hsame : ({ p with gender := if p.gender = none then g else p.gender } : Player β) = p := by
      by_cases hg : p.gender = none
      · have : g = none := by
          by_contra hne
          exact hc ⟨hg, hne⟩
        rw [if_pos hg, this, ← hg]
      · rw [if_neg hg]
    rw [hsame]
    rw [set_lookup_self _ _ _ hp]

/-- After `addPlayer`, the name resolves to a player: the one it resolved to
before the call, or else the one the call has pushed. -/
theorem addPlayer_resolves {β : Type} [LinearOrderedField β] (B : Builtins β)
    (t : Tournament β) (n : JSString) (r : β) (g : Option JSString) :
    ∃ i p, (t.addPlayer B n r g).getPlayerByName B (removeInvisibleCharacters (trim n))
        = some i ∧
      (t.addPlayer B n r g).players[i]? = some p ∧
      i = (t.getPlayerByName B (removeInvisibleCharacters (trim n))).getD t.players.length := by
  cases hi : t.getPlayerByName B (removeInvisibleCharacters (trim n)) with
  | none =>
    have hadd : t.addPlayer B n r g =
        { t with players := t.players ++
                   [{ (Player.new (removeInvisibleCharacters (trim n)) g : Player β) with
                      rating := r }] } := by
      unfold Tournament.addPlayer
      simp only [hi, Option.none_bind]
    refine ⟨t.players.length,
      { (Player.new (removeInvisibleCharacters (trim n)) g : Player β) with rating := r },
      ?_, ?_, rfl⟩
    · rw [hadd]
      unfold Tournament.getPlayerByName at hi ⊢
      exact findRef_append_new _ _ _ hi (by simp [Player.new])
    · rw [hadd]
      simp
  | some i =>
    have hlt := findRef_lt _ _ _ hi
    have hp : t.players[i]? = some t.players[i] := List.getElem?_eq_getElem hlt
    have hadd := addPlayer_found B t n r g i _ hi hp
    refine ⟨i, { t.players[i] with
      gender := if t.players[i].gender = none then g else t.players[i].gender }, ?_, ?_, rfl⟩
    · rw [hadd]
      unfold Tournament.getPlayerByName at hi ⊢
      rw [← hi]
      exact findRef_names _ _ _ (set_gender_names _ _ _ _ hp)
    · rw [hadd]
      exact List.getElem?_set_self hlt

theorem lowerChar_toNat (c : Char) (h : 65 ≤ c.toNat ∧ c.toNat ≤ 90) :
    (lowerChar c).toNat = c.toNat + 32 := by
  obtain ⟨h1, h2⟩ := h
  unfold lowerChar
  rw [if_pos ⟨h1, h2⟩]
  generalize c.toNat = n at h1 h2
  interval_cases n <;> rfl

theorem isWhiteSpace_lowerChar (c : Char) : isWhiteSpace (lowerChar c) = isWhiteSpace c := by
  by_cases h : 65 ≤ c.toNat ∧ c.toNat ≤ 90
  · have hl := lowerChar_toNat c h
    have h1 : isWhiteSpace (lowerChar c) = false := by
      unfold isWhiteSpace
      rw [hl]
      simp
      omega
    have h2 : isWhiteSpace c = false := by
      unfold isWhiteSpace
      simp
      omega
    rw [h1, h2]
  · unfold lowerChar
    rw [if_neg h]

theorem isInvisible_lowerChar (c : Char) : isInvisible (lowerChar c) = isInvisible c := by
  by_cases h : 65 ≤ c.toNat ∧ c.toNat ≤ 90
  · have hl := lowerChar_toNat c h
    have h1 : isInvisible (lowerChar c) = false := by
      unfold isInvisible
      rw [hl]
      simp
      omega
    have h2 : isInvisible c = false := by
      unfold isInvisible
      simp
      omega
    rw [h1, h2]
  · unfold lowerChar
    rw [if_neg h]

theorem asciiLower_removeInvisible (s : JSString) :
    asciiLower (removeInvisibleCharacters s) = removeInvisibleCharacters (asciiLower s) := by
  unfold asciiLower removeInvisibleCharacters
  rw [List.filter_map]
  congr 1
  apply List.filter_congr
  intro c _
  simp [isInvisible_lowerChar]

theorem asciiLower_trim (s : JSString) : asciiLower (trim s) = trim (asciiLower s) := by
  have hcomp : (isWhiteSpace ∘ lowerChar) = isWhiteSpace := by
    funext c
    exact isWhiteSpace_lowerChar c
  unfold asciiLower trim List.rdropWhile
  rw [List.dropWhile_map, ← List.map_reverse, List.dropWhile_map, ← List.map_reverse, hcomp]

/-- C6: let `toLowerCase` commute with stripping zero-width characters and with
trimming, and let `n1`, `n2` be equal once lower-cased, stripped and trimmed.
After `addPlayer(n1, r1, g1)` the name resolves to a player `p` at `i` (the one
found, or the one pushed), and `addPlayer(n2, r2, g2)` then changes nothing but
the gender of `p`, which becomes `g2` only if it was undefined: the roster
keeps its length and `p` keeps name, rating, tallies and history. -/
theorem addPlayer_again (B : Builtins α)
    (hstrip : ∀ s, B.toLowerCase (removeInvisibleCharacters s) =
      removeInvisibleCharacters (B.toLowerCase s))
    (htrim : ∀ s, B.toLowerCase (trim s) = trim (B.toLowerCase s))
    (t : Tournament α) (n1 n2 : JSString) (r1 r2 : α) (g1 g2 : Option JSString)
    (hn : trim (removeInvisibleCharacters (B.toLowerCase n1)) =
      trim (removeInvisibleCharacters (B.toLowerCase n2))) :
    ∃ i p,
      i = (t.getPlayerByName B (removeInvisibleCharacters (trim n1))).getD t.players.length ∧
      (t.addPlayer B n1 r1 g1).players[i]? = some p ∧
      ((t.addPlayer B n1 r1 g1).addPlayer B n2 r2 g2).players =
        (t.addPlayer B n1 r1 g1).players.set i
          { p with gender := if p.gender = none then g2 else p.gender } ∧
      ((t.addPlayer B n1 r1 g1).addPlayer B n2 r2 g2).matches_ =
        (t.addPlayer B n1 r1 g1).matches_ ∧
      ((t.addPlayer B n1 r1 g1).addPlayer B n2 r2 g2).players.length =
        (t.addPlayer B n1 r1 g1).players.length := by
  obtain ⟨i, p, hi, hp, hidx⟩ := addPlayer_resolves B t n1 r1 g1
  have hkey : lookupKey B (removeInvisibleCharacters (trim n2)) =
      lookupKey B (removeInvisibleCharacters (trim n1)) := by
    rw [lookupKey_stored B hstrip htrim, lookupKey_stored B hstrip htrim, hn]
  have hi2 : (t.addPlayer B n1 r1 g1).getPlayerByName B (removeInvisibleCharacters (trim n2))
      = some i := by
    unfold Tournament.getPlayerByName at hi ⊢
    rw [hkey]
    exact hi
  have hadd := addPlayer_found B (t.addPlayer B n1 r1 g1) n2 r2 g2 i p hi2 hp
  refine ⟨i, p, hidx, hp, ?_, ?_, ?_⟩
  · rw [hadd]
  · rw [hadd]
  · rw [hadd]
    simp

/-- The statement of C6 at the names U+200B, space, `Al` and then `AL`, space,
on an empty roster: the second call finds the player of the first and only
fills in the gender. -/
theorem addPlayer_again_witness :
    trim (removeInvisibleCharacters (stdBuiltins.toLowerCase zeroWidthName))
      = trim (removeInvisibleCharacters (stdBuiltins.toLowerCase "AL ".toList)) ∧
    ∃ i p,
      i = ((Tournament.new : Tournament ℚ).getPlayerByName stdBuiltins
        (removeInvisibleCharacters (trim zeroWidthName))).getD
          (Tournament.new : Tournament ℚ).players.length ∧
      (Tournament.new.addPlayer stdBuiltins zeroWidthName 1500 none).players[i]? = some p ∧
      ((Tournament.new.addPlayer stdBuiltins zeroWidthName 1500 none).addPlayer stdBuiltins
          "AL ".toList 1650 (some "male".toList)).players =
        (Tournament.new.addPlayer stdBuiltins zeroWidthName 1500 none).players.set i
          { p with gender := if p.gender = none then some "male".toList else p.gender } ∧
      ((Tournament.new.addPlayer stdBuiltins zeroWidthName 1500 none).addPlayer stdBuiltins
          "AL ".toList 1650 (some "male".toList)).matches_ =
        (Tournament.new.addPlayer stdBuiltins zeroWidthName 1500 none).matches_ ∧
      ((Tournament.new.addPlayer stdBuiltins zeroWidthName 1500 none).addPlayer stdBuiltins
          "AL ".toList 1650 (some "male".toList)).players.length =
        (Tournament.new.addPlayer stdBuiltins zeroWidthName 1500 none).players.length :=
  ⟨by decide, addPlayer_again stdBuiltins asciiLower_removeInvisible asciiLower_trim
    Tournament.new zeroWidthName "AL ".toList 1500 1650 none (some "male".toList) (by decide)⟩

/-! ## Pairings -/

theorem mapM_option_lookup {ι β : Type} (f : ι → Option β) (l : List ι)
    (h : ∀ a ∈ l, ∃ b, f a = some b) :
    ∃ ys, l.mapM f = some ys ∧ ys.length = l.length ∧
      ∀ k, k < l.length → ys[k]? = (l[k]?).bind f := by
  induction l with
  | nil => exact ⟨[], rfl, rfl, fun k hk => by simp at hk⟩
  | cons a l ih =>
    obtain ⟨b, hb⟩ := h a (List.mem_cons_self _ _)
    obtain ⟨ys, hys, hlen, hk⟩ := ih (fun c hc => h c (List.mem_cons_of_mem _ hc))
    refine ⟨b :: ys, ?_, by simp [hlen], ?_⟩
    · rw [List.mapM_cons, hb, hys]; rfl
    · intro k hklt
      cases k with
      | zero => simp [hb]
      | succ k =>
        simp only [List.length_cons, Nat.add_lt_add_iff_right] at hklt
        simpa using hk k hklt

/-- Sorting players of pairwise distinct ratings puts them in strictly
descending order of rating. -/
theorem insertionSort_strict (ps : List (Player α))
    (hd : (ps.map (fun p => p.rating)).Nodup) :
    (ps.insertionSort ratingDescending).Sorted (fun a b => a.rating > b.rating) := by
  have hs : (ps.insertionSort ratingDescending).Sorted ratingDescending :=
    List.sorted_insertionSort ratingDescending ps
  have hn : ((ps.insertionSort ratingDescending).map (fun p => p.rating)).Nodup :=
    ((List.perm_insertionSort ratingDescending ps).map _).nodup_iff.2 hd
  have hne : (ps.insertionSort ratingDescending).Pairwise (fun a b => a.rating ≠ b.rating) :=
    List.pairwise_map.1 hn
  exact (List.Pairwise.and hs hne).imp
    (fun {a b} h => lt_of_le_of_ne h.1 (Ne.symm h.2))

/-- C10: on a roster of `n` players with pairwise distinct ratings,
`generateNewPairings` returns `n / 2` pairs; with `sorted` the players in
strictly descending order of rating, pair `i` is the label (name and scaled
rating) of `sorted[i]` followed by that of `sorted[n - 1 - i]`, and the players
of two different pairs are different. -/
theorem generateNewPairings_split (B : Builtins α) (t : Tournament α)
    (hd : (t.players.map (fun p => p.rating)).Nodup) :
    ∃ (sorted : List (Player α)) (pairs : List (List JSString)), sorted.Perm t.players ∧
      sorted.Sorted (fun a b => a.rating > b.rating) ∧
      t.generateNewPairings B = some pairs ∧
      pairs.length = t.players.length / 2 ∧
      (∀ i, i < t.players.length / 2 → ∃ top bottom,
        sorted[i]? = some top ∧ sorted[t.players.length - 1 - i]? = some bottom ∧
        pairs[i]? = some [pairingLabel B top, pairingLabel B bottom]) ∧
      (∀ i j a b, i < j → j < t.players.length / 2 →
        (sorted[i]? = some a ∨ sorted[t.players.length - 1 - i]? = some a) →
        (sorted[j]? = some b ∨ sorted[t.players.length - 1 - j]? = some b) → a ≠ b) := by
  have hperm := List.perm_insertionSort ratingDescending t.players
  have hlen : (t.players.insertionSort ratingDescending).length = t.players.length :=
    hperm.length_eq
  have hstrict := insertionSort_strict t.players hd
  have hnodup : (t.players.insertionSort ratingDescending).Nodup :=
    hstrict.imp (fun {a b} h hab => by rw [hab] at h; exact lt_irrefl _ h)
  obtain ⟨pairs, hpairs, hplen, hpk⟩ := mapM_option_lookup
    (fun i => do
      let topPlayer ← (t.players.insertionSort ratingDescending)[i]?
      let bottomPlayer ← (t.players.insertionSort ratingDescending)[
        (t.players.insertionSort ratingDescending).length - 1 - i]?
      pure [pairingLabel B topPlayer, pairingLabel B bottomPlayer])
    (List.range ((t.players.insertionSort ratingDescending).length / 2))
    (by
      intro i hi
      have hi1 : i < (t.players.insertionSort ratingDescending).length / 2 := List.mem_range.1 hi
      have h1 : i < (t.players.insertionSort ratingDescending).length := by omega
      have h2 : (t.players.insertionSort ratingDescending).length - 1 - i <
          (t.players.insertionSort ratingDescending).length := by omega
      simp only [List.getElem?_eq_getElem h1, List.getElem?_eq_getElem h2]
      exact ⟨_, rfl⟩)
  refine ⟨t.players.insertionSort ratingDescending, pairs, hperm, hstrict, hpairs, ?_, ?_, ?_⟩
  · rw [hplen, List.length_range, hlen]
  · intro i hi
    have h1 : i < (t.players.insertionSort ratingDescending).length := by omega
    have h2 : t.players.length - 1 - i <
        (t.players.insertionSort ratingDescending).length := by omega
    refine ⟨_, _, List.getElem?_eq_getElem h1, List.getElem?_eq_getElem h2, ?_⟩
    rw [hpk i (by rw [List.length_range, hlen]; exact hi),
      List.getElem?_range (by rw [hlen]; exact hi)]
    simp only [Option.some_bind, hlen]
    rw [List.getElem?_eq_getElem h1, List.getElem?_eq_getElem h2]
    rfl
  · intro i j a b hij hj ha hb hab
    subst hab
    have hinj : ∀ x y, x < y → y < (t.players.insertionSort ratingDescending).length →
        (t.players.insertionSort ratingDescending)[x]? = some a →
        (t.players.insertionSort ratingDescending)[y]? = some a → False := by
      intro x y hxy hy hx hy2
      exact List.nodup_iff_getElem?_ne_getElem?.1 hnodup x y hxy hy (hx.trans hy2.symm)
    rcases ha with ha | ha <;> rcases hb with hb | hb
    · exact hinj i j hij (by omega) ha hb
    · exact hinj i (t.players.length - 1 - j) (by omega) (by omega) ha hb
    · exact hinj j (t.players.length - 1 - i) (by omega) (by omega) hb ha
    · exact hinj (t.players.length - 1 - j) (t.players.length - 1 - i) (by omega) (by omega)
        hb ha

/-- The statement of C10 at four players ranked `A > B > C > D`: the pairs are
`(A, D)` and `(B, C)`. -/
theorem generateNewPairings_split_witness :
    (rankedFour.players.map (fun p => p.rating)).Nodup ∧
    rankedFour.generateNewPairings stdBuiltins =
      some [["A (7.0)".toList, "D (3.0)".toList], ["B (5.5)".toList, "C (4.5)".toList]] ∧
    ∃ (sorted : List (Player ℚ)) (pairs : List (List JSString)),
      sorted.Perm rankedFour.players ∧
      sorted.Sorted (fun a b => a.rating > b.rating) ∧
      rankedFour.generateNewPairings stdBuiltins = some pairs ∧
      pairs.length = rankedFour.players.length / 2 ∧
      (∀ i, i < rankedFour.players.length / 2 → ∃ top bottom,
        sorted[i]? = some top ∧ sorted[rankedFour.players.length - 1 - i]? = some bottom ∧
        pairs[i]? = some [pairingLabel stdBuiltins top, pairingLabel stdBuiltins bottom]) ∧
      (∀ i j a b, i < j → j < rankedFour.players.length / 2 →
        (sorted[i]? = some a ∨ sorted[rankedFour.players.length - 1 - i]? = some a) →
        (sorted[j]? = some b ∨ sorted[rankedFour.players.length - 1 - j]? = some b) → a ≠ b) :=
  ⟨by decide, by decide!, generateNewPairings_split stdBuiltins rankedFour (by decide)⟩

/-- Whatever the roster, `play` raises when the first member of team A is
`undefined`: the loop over team A raises, and so does the `catch` block. -/
theorem play_raises_of_undefined_captain (B : Builtins α) (restA teamB : List (Option Nat))
    (sA sB : α) (ps : List (Player α)) :
    ∃ ps1, (Match.new (none :: restA) teamB sA sB).play B ps = .threw ps1 := by
  have hb : ∃ s, (if sA > sB then
        ((forEachPlayer (fun player : Player α => player.recordMatch "win")
            (none :: restA) ps).andThen
          (forEachPlayer (fun player => player.recordMatch "lose") teamB)).andThen
          (updateRatingsForDoubles B (none :: restA) teamB "winA" 32 sA sB)
      else
        ((forEachPlayer (fun player : Player α => player.recordMatch "win") teamB ps).andThen
          (forEachPlayer (fun player => player.recordMatch "lose") (none :: restA))).andThen
          (updateRatingsForDoubles B (none :: restA) teamB "winB" 32 sA sB))
      = Outcome.threw s := by
    split
    · exact ⟨ps, by simp [forEachPlayer, Outcome.andThen]⟩
    · cases ho : forEachPlayer (fun player : Player α => player.recordMatch "win") teamB ps with
      | ok s => exact ⟨s, by simp [forEachPlayer, Outcome.andThen]⟩
      | threw s => exact ⟨s, by simp [Outcome.andThen]⟩
  obtain ⟨s, hs⟩ := hb
  refine ⟨s, ?_⟩
  simp only [Match.play, Match.new, hs, captainName, List.getElem?_cons_zero]

/-- Whatever the roster, `addMatch` raises and leaves the match log as it was
when the first name of team A does not resolve. -/
theorem addMatch_raises_of_unresolved_captain (B : Builtins α) (t : Tournament α)
    (nameA : JSString) (restA teamB : List JSString) (sA sB : α)
    (h : t.getPlayerByName B nameA = none) :
    ∃ t1, t.addMatch B (nameA :: restA) teamB sA sB = .threw t1 ∧
      t1.matches_ = t.matches_ := by
  obtain ⟨ps1, hps⟩ := play_raises_of_undefined_captain B
    (restA.map (fun n => t.getPlayerByName B n)) (teamB.map (fun n => t.getPlayerByName B n))
    sA sB t.players
  refine ⟨{ t with players := ps1 }, ?_, rfl⟩
  unfold Tournament.addMatch
  simp only [List.map_cons, h, hps]

/-! ## Display values -/

/-- C14: the scaled rating is `(rating - 1000) / 100` clamped to `[0, 10]`, shown
by `toFixed(1)`: the clamped value lies in `[0, 10]`, it is 0 for every rating
up to 1000 and 10 for every rating from 2000 on. -/
theorem scaledRating_clamped (B : Builtins α) (p : Player α) :
    p.scaledValue = min (max ((p.rating - 1000) / 100) 0) 10 ∧
      0 ≤ p.scaledValue ∧ p.scaledValue ≤ 10 ∧
      (p.rating ≤ 1000 → p.scaledValue = 0) ∧
      (2000 ≤ p.rating → p.scaledValue = 10) ∧
      p.scaledRating B = B.toFixed (min (max ((p.rating - 1000) / 100) 0) 10) 1 := by
  have hv : p.scaledValue = min (max ((p.rating - 1000) / 100) 0) 10 := by
    unfold Player.scaledValue
    simp only
    congr 2
    ring
  refine ⟨hv, ?_, ?_, ?_, ?_, ?_⟩
  · rw [hv]; exact le_min (le_max_right _ _) (by norm_num)
  · rw [hv]; exact min_le_right _ _
  · intro h
    rw [hv]
    have h1 : (p.rating - 1000) / 100 ≤ 0 :=
      div_nonpos_of_nonpos_of_nonneg (by linarith) (by norm_num)
    rw [max_eq_right h1]
    exact min_eq_left (by norm_num)
  · intro h
    rw [hv]
    have h1 : (10 : α) ≤ (p.rating - 1000) / 100 := by
      rw [le_div_iff₀ (by norm_num)]
      linarith
    exact min_eq_right (le_trans h1 (le_max_left _ _))
  · unfold Player.scaledRating
    rw [hv]

/-- The statement of C14 at the rating 2500, and the strings shown for the
ratings 1000, 500, 2000 and 2500. -/
theorem scaledRating_clamped_witness :
    ((1000 : ℚ) ≤ 1000 ∧ (2000 : ℚ) ≤ 2500) ∧
    (samplePlayer "Al" 1000).scaledRating stdBuiltins = "0.0".toList ∧
    (samplePlayer "Al" 500).scaledRating stdBuiltins = "0.0".toList ∧
    (samplePlayer "Al" 2000).scaledRating stdBuiltins = "10.0".toList ∧
    (samplePlayer "Al" 2500).scaledRating stdBuiltins = "10.0".toList ∧
    (samplePlayer "Al" 2500).scaledValue = 10 :=
  ⟨by norm_num, by decide!, by decide!, by decide!, by decide!,
    (scaledRating_clamped stdBuiltins (samplePlayer "Al" 2500)).2.2.2.2.1 (by norm_num [samplePlayer])⟩

/-- C15: `winRate` is defined for every player: it is the number 0 when no
match was played, and otherwise `wins / matchesPlayed` through `toFixed(2)`;
after three wins of a new player that is `toFixed(2)` of 1. -/
theorem winRate_defined (B : Builtins α) (p : Player α) :
    (p.matchesPlayed = 0 → p.winRate B = .number 0) ∧
      (0 < p.matchesPlayed →
        p.winRate B = .text (B.toFixed ((p.wins : α) / (p.matchesPlayed : α)) 2)) ∧
      ∀ (name : JSString) (gender : Option JSString),
        ((((Player.new name gender : Player α).recordMatch "win").recordMatch
          "win").recordMatch "win").winRate B = .text (B.toFixed 1 2) := by
  refine ⟨?_, ?_, ?_⟩
  · intro h
    unfold Player.winRate
    rw [if_pos h]
  · intro h
    unfold Player.winRate
    rw [if_neg (by omega)]
  · intro name gender
    simp only [Player.winRate, Player.recordMatch, Player.new, if_pos]
    norm_num

/-- The statement of C15 at a player with three wins and one loss, shown as
`0.75`; a new player after three wins is shown as `1.00`, a new player has 0. -/
theorem winRate_defined_witness :
    0 < threeWinsOneLoss.matchesPlayed ∧
    threeWinsOneLoss.winRate stdBuiltins = .text "0.75".toList ∧
    threeWins.winRate stdBuiltins = .text "1.00".toList ∧
    (Player.new "Al".toList none : Player ℚ).winRate stdBuiltins = .number 0 := by
  refine ⟨by decide, ?_, by decide!, by decide!⟩
  rw [(winRate_defined stdBuiltins threeWinsOneLoss).2.1 (by decide)]
  decide!

/-! ## Expected score, ties and conservation -/

theorem expected_between (x : α) (hx : 0 < x) : 0 < 1 / (1 + x) ∧ 1 / (1 + x) < 1 := by
  have h1 : (0 : α) < 1 + x := by linarith
  refine ⟨div_pos one_pos h1, ?_⟩
  rw [div_lt_one h1]
  linarith

/-- C16: when `Math.pow(10, x)` is positive for every `x`, the expected score
`1 / (1 + 10 ^ ((rOpp - rSelf) / 400))` lies strictly between 0 and 1 for all
ratings; it is the expected score that `Player.updateRating` uses, and, on the
team means, the one that `updateRatingsForDoubles` uses for each team. -/
theorem expectedScore_in_unit_interval (B : Builtins α) (hpos : ∀ x, 0 < B.pow10 x) :
    (∀ rSelf rOpp : α, 0 < 1 / (1 + B.pow10 ((rOpp - rSelf) / 400)) ∧
        1 / (1 + B.pow10 ((rOpp - rSelf) / 400)) < 1) ∧
      (∀ (p : Player α) (opponentRating : α) (result : String) (kFactor marginFactor : α),
        ∃ e, 0 < e ∧ e < 1 ∧
          (p.updateRating B opponentRating result kFactor marginFactor).rating =
            p.rating + kFactor * marginFactor * ((if result = "win" then 1 else 0) - e)) ∧
      (∀ (ps : List (Player α)) (a0 a1 b0 b1 : Nat) (pa0 pa1 pb0 pb1 : Player α)
          (result : String) (kFactor sA sB : α),
        ps[a0]? = some pa0 → ps[a1]? = some pa1 → ps[b0]? = some pb0 → ps[b1]? = some pb1 →
        [a0, a1, b0, b1].Nodup →
        ∃ eA eB ps1, 0 < eA ∧ eA < 1 ∧ 0 < eB ∧ eB < 1 ∧
          updateRatingsForDoubles B [some a0, some a1] [some b0, some b1] result kFactor
            sA sB ps = .ok ps1 ∧
          (ps1[a0]?).map (fun p => p.rating) = some (pa0.rating +
            kFactor * (1 + |sA - sB| / 21) * ((if result = "winA" then 1 else 0) - eA)) ∧
          (ps1[b0]?).map (fun p => p.rating) = some (pb0.rating +
            kFactor * (1 + |sA - sB| / 21) * ((if result = "winB" then 1 else 0) - eB))) := by
  refine ⟨fun rSelf rOpp => expected_between _ (hpos _), ?_, ?_⟩
  · intro p opponentRating result kFactor marginFactor
    exact ⟨1 / (1 + B.pow10 ((opponentRating - p.rating) / 400)),
      (expected_between _ (hpos _)).1, (expected_between _ (hpos _)).2, rfl⟩
  · intro ps a0 a1 b0 b1 pa0 pa1 pb0 pb1 result kFactor sA sB ha0 ha1 hb0 hb1 hd
    simp only [List.nodup_cons, List.mem_cons, List.mem_singleton, not_or, List.not_mem_nil,
      not_false_eq_true, List.nodup_nil, and_true] at hd
    obtain ⟨⟨h01, h02, h03⟩, ⟨h12, h13⟩, h23⟩ := hd
    obtain ⟨ps1, e, r0, -, r2, -, -⟩ := updateRatings_pair B ps a0 a1 b0 b1 pa0 pa1 pb0 pb1
      result kFactor sA sB ha0 ha1 hb0 hb1 h01 h02 h03 h12 h13 h23
    refine ⟨1 / (1 + B.pow10
        (((pb0.rating + pb1.rating) / 2 - (pa0.rating + pa1.rating) / 2) / 400)),
      1 / (1 + B.pow10
        (((pa0.rating + pa1.rating) / 2 - (pb0.rating + pb1.rating) / 2) / 400)),
      ps1, (expected_between _ (hpos _)).1, (expected_between _ (hpos _)).2,
      (expected_between _ (hpos _)).1, (expected_between _ (hpos _)).2, e, ?_, ?_⟩
    · rw [r0]; rfl
    · rw [r2]; rfl

/-- The statement of C16 over the real numbers, with `Math.pow(10, x)` the real
power `10 ^ x`: the expected score of a player rated 1500 against 1700 lies
strictly between 0 and 1. -/
theorem expectedScore_in_unit_interval_witness :
    (∀ x : ℝ, 0 < (10 : ℝ) ^ x) ∧
    0 < 1 / (1 + (10 : ℝ) ^ (((1700 : ℝ) - 1500) / 400)) ∧
    1 / (1 + (10 : ℝ) ^ (((1700 : ℝ) - 1500) / 400)) < 1 :=
  ⟨fun x => Real.rpow_pos_of_pos (by norm_num) x,
    (expectedScore_in_unit_interval
      ({ toLowerCase := id, pow10 := fun x => (10 : ℝ) ^ x, toFixed := fun _ _ => [] } :
        Builtins ℝ)
      (fun x => Real.rpow_pos_of_pos (by norm_num) x)).1 1500 1700⟩

/-- C18: in a tie between two teams of two distinct resolved players, the
constructor makes team B the winner and team A the loser, and `play` tallies a
win for both members of team B and a loss for both members of team A, and
rates with the margin factor 1, the actual score 1 for team B and 0 for team A. -/
theorem play_tie_favours_teamB (B : Builtins α) (ps : List (Player α))
    (a0 a1 b0 b1 : Nat) (pa0 pa1 pb0 pb1 : Player α) (s : α)
    (ha0 : ps[a0]? = some pa0) (ha1 : ps[a1]? = some pa1)
    (hb0 : ps[b0]? = some pb0) (hb1 : ps[b1]? = some pb1)
    (hd : [a0, a1, b0, b1].Nodup) :
    (Match.new [some a0, some a1] [some b0, some b1] s s).winner = [some b0, some b1] ∧
    (Match.new [some a0, some a1] [some b0, some b1] s s).loser = [some a0, some a1] ∧
    ∃ ps1, (Match.new [some a0, some a1] [some b0, some b1] s s).play B ps = .ok ps1 ∧
      ps1[a0]? = some { pa0 with
        matchesPlayed := pa0.matchesPlayed + 1, losses := pa0.losses + 1,
        rating := pa0.rating + 32 * 1 * (0 - 1 / (1 + B.pow10
          (((pb0.rating + pb1.rating) / 2 - (pa0.rating + pa1.rating) / 2) / 400))) } ∧
      ps1[a1]? = some { pa1 with
        matchesPlayed := pa1.matchesPlayed + 1, losses := pa1.losses + 1,
        rating := pa1.rating + 32 * 1 * (0 - 1 / (1 + B.pow10
          (((pb0.rating + pb1.rating) / 2 - (pa0.rating + pa1.rating) / 2) / 400))) } ∧
      ps1[b0]? = some { pb0 with
        matchesPlayed := pb0.matchesPlayed + 1, wins := pb0.wins + 1,
        rating := pb0.rating + 32 * 1 * (1 - 1 / (1 + B.pow10
          (((pa0.rating + pa1.rating) / 2 - (pb0.rating + pb1.rating) / 2) / 400))) } ∧
      ps1[b1]? = some { pb1 with
        matchesPlayed := pb1.matchesPlayed + 1, wins := pb1.wins + 1,
        rating := pb1.rating + 32 * 1 * (1 - 1 / (1 + B.pow10
          (((pa0.rating + pa1.rating) / 2 - (pb0.rating + pb1.rating) / 2) / 400))) } := by
  obtain ⟨ps1, e, r0, r1, r2, r3, -⟩ :=
    play_doubles B ps a0 a1 b0 b1 pa0 pa1 pb0 pb1 s s ha0 ha1 hb0 hb1 hd
  have hlose : ("lose" : String) ≠ "win" := by decide
  have hm : (1 : α) + |s - s| / 21 = 1 := by simp
  simp only [gt_iff_lt, lt_irrefl, if_false, hm] at r0 r1 r2 r3
  refine ⟨by simp [Match.new], by simp [Match.new], ps1, e, ?_, ?_, ?_, ?_⟩
  · rw [r0]; simp [Player.recordMatch]
  · rw [r1]; simp [Player.recordMatch]
  · rw [r2]; simp [Player.recordMatch]
  · rw [r3]; simp [Player.recordMatch]

/-- The statement of C18 at a tie 21 to 21 between four new players: team A
gets the losses and 16 points less, team B the wins and 16 points more. -/
theorem play_tie_favours_teamB_witness :
    [0, 1, 2, 3].Nodup ∧
    (Match.new [some 0, some 1] [some 2, some 3] (21 : ℚ) 21).winner = [some 2, some 3] ∧
    ∃ ps1, (Match.new [some 0, some 1] [some 2, some 3] (21 : ℚ) 21).play stdBuiltins
        [samplePlayer "Al" 1500, samplePlayer "Bo" 1500, samplePlayer "Cy" 1500,
          samplePlayer "Di" 1500] = .ok ps1 ∧
      (ps1[0]?).map (fun p => (p.wins, p.losses, p.rating)) = some (0, 1, 1484) ∧
      (ps1[1]?).map (fun p => (p.wins, p.losses, p.rating)) = some (0, 1, 1484) ∧
      (ps1[2]?).map (fun p => (p.wins, p.losses, p.rating)) = some (1, 0, 1516) ∧
      (ps1[3]?).map (fun p => (p.wins, p.losses, p.rating)) = some (1, 0, 1516) := by
  obtain ⟨hw, -, ps1, e, r0, r1, r2, r3⟩ := play_tie_favours_teamB stdBuiltins
    [samplePlayer "Al" 1500, samplePlayer "Bo" 1500, samplePlayer "Cy" 1500,
      samplePlayer "Di" 1500] 0 1 2 3 _ _ _ _ 21 rfl rfl rfl rfl (by decide)
  refine ⟨by decide, hw, ps1, e, ?_, ?_, ?_, ?_⟩
  · rw [r0]; norm_num [samplePlayer, Player.new, stdBuiltins, pow10Q]
  · rw [r1]; norm_num [samplePlayer, Player.new, stdBuiltins, pow10Q]
  · rw [r2]; norm_num [samplePlayer, Player.new, stdBuiltins, pow10Q]
  · rw [r3]; norm_num [samplePlayer, Player.new, stdBuiltins, pow10Q]

/-- C19: in a doubles match between four distinct resolved players, for all
scores, when `10 ^ (-x)` is the inverse of the positive `10 ^ x` at the
exponent `x` of the match, what every member of team A gains is what every
member of team B loses, and the four ratings keep their sum. -/
theorem play_doubles_conserves_rating (B : Builtins α) (ps : List (Player α))
    (a0 a1 b0 b1 : Nat) (pa0 pa1 pb0 pb1 : Player α) (sA sB : α)
    (ha0 : ps[a0]? = some pa0) (ha1 : ps[a1]? = some pa1)
    (hb0 : ps[b0]? = some pb0) (hb1 : ps[b1]? = some pb1)
    (hd : [a0, a1, b0, b1].Nodup)
    (hpos : 0 < B.pow10
      (((pb0.rating + pb1.rating) / 2 - (pa0.rating + pa1.rating) / 2) / 400))
    (hinv : B.pow10 (((pa0.rating + pa1.rating) / 2 - (pb0.rating + pb1.rating) / 2) / 400) =
      (B.pow10 (((pb0.rating + pb1.rating) / 2 - (pa0.rating + pa1.rating) / 2) / 400))⁻¹) :
    ∃ ps1 qa0 qa1 qb0 qb1,
      (Match.new [some a0, some a1] [some b0, some b1] sA sB).play B ps = .ok ps1 ∧
      ps1[a0]? = some qa0 ∧ ps1[a1]? = some qa1 ∧
      ps1[b0]? = some qb0 ∧ ps1[b1]? = some qb1 ∧
      qa0.rating - pa0.rating = -(qb0.rating - pb0.rating) ∧
      qa1.rating - pa1.rating = -(qb1.rating - pb1.rating) ∧
      qa0.rating + qa1.rating + qb0.rating + qb1.rating =
        pa0.rating + pa1.rating + pb0.rating + pb1.rating := by
  obtain ⟨ps1, e, r0, r1, r2, r3, -⟩ :=
    play_doubles B ps a0 a1 b0 b1 pa0 pa1 pb0 pb1 sA sB ha0 ha1 hb0 hb1 hd
  have key : ∀ x : α, 0 < x →
      32 * (1 + |sA - sB| / 21) * ((if sA > sB then 1 else 0) - 1 / (1 + x)) =
        -(32 * (1 + |sA - sB| / 21) * ((if sA > sB then 0 else 1) - 1 / (1 + x⁻¹))) := by
    intro x hx
    have h1 : (1 : α) + x ≠ 0 := by positivity
    have h2 : x ≠ 0 := ne_of_gt hx
    have h3 : (1 : α) + x⁻¹ ≠ 0 := by positivity
    have hsum : 1 / (1 + x) + 1 / (1 + x⁻¹) = 1 := by
      field_simp
      ring
    by_cases h : sA > sB
    · simp only [if_pos h]
      linear_combination (-(32 * (1 + |sA - sB| / 21))) * hsum
    · simp only [if_neg h]
      linear_combination (-(32 * (1 + |sA - sB| / 21))) * hsum
  have hk := key _ hpos
  rw [← hinv] at hk
  refine ⟨ps1, _, _, _, _, e, r0, r1, r2, r3, ?_, ?_, ?_⟩
  · simp only [add_sub_cancel_left]
    exact hk
  · simp only [add_sub_cancel_left]
    exact hk
  · simp only
    linear_combination (2 : α) * hk

/-- The statement of C19 at a match between players rated 1700, 1700, 1300 and
1300 that ends 21 to 15. -/
theorem play_doubles_conserves_rating_witness :
    [0, 1, 2, 3].Nodup ∧
    ∃ ps1 qa0 qa1 qb0 qb1,
      (Match.new [some 0, some 1] [some 2, some 3] (21 : ℚ) 15).play stdBuiltins
        [samplePlayer "Al" 1700, samplePlayer "Bo" 1700, samplePlayer "Cy" 1300,
          samplePlayer "Di" 1300] = .ok ps1 ∧
      ps1[0]? = some qa0 ∧ ps1[1]? = some qa1 ∧
      ps1[2]? = some qb0 ∧ ps1[3]? = some qb1 ∧
      qa0.rating - (samplePlayer "Al" 1700).rating =
        -(qb0.rating - (samplePlayer "Cy" 1300).rating) ∧
      qa1.rating - (samplePlayer "Bo" 1700).rating =
        -(qb1.rating - (samplePlayer "Di" 1300).rating) ∧
      qa0.rating + qa1.rating + qb0.rating + qb1.rating =
        (samplePlayer "Al" 1700).rating + (samplePlayer "Bo" 1700).rating +
          (samplePlayer "Cy" 1300).rating + (samplePlayer "Di" 1300).rating := by
  have hneg : pow10Q (-1) = 1 / 10 := by
    have : ⌊(-1 : ℚ)⌋ = -1 := by norm_num
    simp [pow10Q, this]
  have hone : pow10Q 1 = 10 := by simp [pow10Q]
  exact ⟨by decide, play_doubles_conserves_rating stdBuiltins
    [samplePlayer "Al" 1700, samplePlayer "Bo" 1700, samplePlayer "Cy" 1300,
      samplePlayer "Di" 1300] 0 1 2 3 _ _ _ _ 21 15 rfl rfl rfl rfl (by decide)
    (by norm_num [samplePlayer, stdBuiltins, hneg])
    (by norm_num [samplePlayer, stdBuiltins, hneg, hone])⟩

/-! ## Unique lookup keys -/

theorem findRef_none {β : Type} (key : JSString → Bool) (ps : List (Player β))
    (h : findRef key ps = none) : ∀ p ∈ ps, key p.name = false := by
  induction ps with
  | nil => intro p hp; simp at hp
  | cons q ps ih =>
    unfold findRef at h
    split at h
    · cases h
    · next hq =>
      have hn : findRef key ps = none := by
        cases hr : findRef key ps with
        | none => rfl
        | some j => simp [hr] at h
      intro p hp
      rcases List.mem_cons.1 hp with hp1 | hp1
      · rw [hp1]; simpa using hq
      · exact ih hn p hp1

/-- What `addPlayer` does when the name resolves to no player: a new player
with the stored name is pushed. -/
theorem addPlayer_new {β : Type} [LinearOrderedField β] (B : Builtins β)
    (t : Tournament β) (n : JSString) (r : β) (g : Option JSString)
    (hi : t.getPlayerByName B (removeInvisibleCharacters (trim n)) = none) :
    (t.addPlayer B n r g).players = t.players ++
      [{ (Player.new (removeInvisibleCharacters (trim n)) g : Player β) with rating := r }] := by
  unfold Tournament.addPlayer
  simp only [hi, Option.none_bind]

/-- One `addPlayer` call keeps the lookup keys of the roster pairwise distinct. -/
theorem addPlayer_keys_nodup (B : Builtins α) (t : Tournament α) (n : JSString) (r : α)
    (g : Option JSString)
    (h : (t.players.map (fun p => lookupKey B p.name)).Nodup) :
    ((t.addPlayer B n r g).players.map (fun p => lookupKey B p.name)).Nodup := by
  cases hi : t.getPlayerByName B (removeInvisibleCharacters (trim n)) with
  | none =>
    rw [addPlayer_new B t n r g hi, List.map_append, List.nodup_append]
    refine ⟨h, by simp, ?_⟩
    rw [List.disjoint_right]
    intro k hk hmem
    simp only [List.map_cons, List.map_nil, List.mem_singleton] at hk
    obtain ⟨p, hp, hpk⟩ := List.mem_map.1 hmem
    have hfalse := findRef_none _ _ hi p hp
    rw [hk] at hpk
    simp only [Player.new] at hpk
    simp [hpk] at hfalse
  | some i =>
    have hlt := findRef_lt _ _ _ hi
    have hp : t.players[i]? = some t.players[i] := List.getElem?_eq_getElem hlt
    rw [addPlayer_found B t n r g i _ hi hp]
    have hnames := set_gender_names t.players i t.players[i]
      (if t.players[i].gender = none then g else t.players[i].gender) hp
    have hkeys : ∀ qs : List (Player α), qs.map (fun p => lookupKey B p.name) =
        (qs.map (fun p => p.name)).map (lookupKey B) := by
      intro qs; simp
    rw [hkeys] at h ⊢
    simp only
    rw [hnames]
    exact h

/-- C17: after any sequence of `addPlayer` calls on a new tournament, the
lookup keys `removeInvisibleCharacters(name.toLowerCase().trim())` of the
stored names are pairwise distinct. -/
theorem addPlayers_keys_nodup (B : Builtins α)
    (players : List (JSString × α × Option JSString)) :
    (((Tournament.new : Tournament α).addPlayers B players).players.map
      (fun p => lookupKey B p.name)).Nodup := by
  have key : ∀ (l : List (JSString × α × Option JSString)) (t : Tournament α),
      (t.players.map (fun p => lookupKey B p.name)).Nodup →
      ((t.addPlayers B l).players.map (fun p => lookupKey B p.name)).Nodup := by
    intro l
    induction l with
    | nil => intro t ht; simpa [Tournament.addPlayers] using ht
    | cons a l ih =>
      intro t ht
      simp only [Tournament.addPlayers, List.foldl_cons]
      exact ih _ (addPlayer_keys_nodup B t a.1 a.2.1 a.2.2 ht)
  exact key players Tournament.new (by simp [Tournament.new])

/-! ## Houses -/

/-- The houses once the pairings `done` have been dealt: house `h` holds
`done[h]` and then `done[h + numHouses]`, as far as they exist. -/
theorem housesAfter_step {β : Type} (numHouses : Nat) (done : List β) (x : β)
    (hpos : 0 < numHouses) (hlen : done.length < 2 * numHouses) :
    ∃ house,
      ((List.range numHouses).map (fun h =>
        (done[h]?).toList ++ (done[h + numHouses]?).toList))[done.length % numHouses]?
        = some house ∧
      ((List.range numHouses).map (fun h =>
        (done[h]?).toList ++ (done[h + numHouses]?).toList)).set (done.length % numHouses)
          (house ++ [x]) =
        (List.range numHouses).map (fun h =>
          ((done ++ [x])[h]?).toList ++ ((done ++ [x])[h + numHouses]?).toList) := by
  have hmod : done.length % numHouses < numHouses := Nat.mod_lt _ hpos
  refine ⟨(done[done.length % numHouses]?).toList ++
    (done[done.length % numHouses + numHouses]?).toList, ?_, ?_⟩
  · simp [List.getElem?_map, List.getElem?_range hmod]
  · apply List.ext_getElem?
    intro h
    by_cases hh : h < numHouses
    · by_cases heq : done.length % numHouses = h
      · subst heq
        rw [List.getElem?_set_self (by simpa using hmod)]
        simp only [List.getElem?_map, List.getElem?_range hmod, Option.map_some']
        congr 1
        by_cases hsmall : done.length < numHouses
        · have hm : done.length % numHouses = done.length := Nat.mod_eq_of_lt hsmall
          rw [hm]
          have h1 : done[done.length]? = none := List.getElem?_eq_none (le_refl _)
          have h2 : done[done.length + numHouses]? = none :=
            List.getElem?_eq_none (by omega)
          have h3 : (done ++ [x])[done.length]? = some x := by simp
          have h4 : (done ++ [x])[done.length + numHouses]? = none :=
            List.getElem?_eq_none (by simp; omega)
          rw [h1, h2, h3, h4]
          rfl
        · have hm : done.length % numHouses = done.length - numHouses := by
            rw [Nat.mod_eq_sub_mod (by omega)]
            exact Nat.mod_eq_of_lt (by omega)
          rw [hm]
          have hlt : done.length - numHouses < done.length := by omega
          have h1 : (done ++ [x])[done.length - numHouses]? = done[done.length - numHouses]? :=
            List.getElem?_append_left hlt
          have h2 : done.length - numHouses + numHouses = done.length := by omega
          rw [h1, h2]
          have h3 : done[done.length]? = none := List.getElem?_eq_none (le_refl _)
          have h4 : (done ++ [x])[done.length]? = some x := by simp
          rw [h3, h4]
          simp
      · rw [List.getElem?_set_ne heq]
        simp only [List.getElem?_map, List.getElem?_range hh, Option.map_some']
        congr 1
        have hne1 : h ≠ done.length := by
          intro hc
          rw [← hc] at heq
          exact heq (Nat.mod_eq_of_lt hh)
        have hne2 : h + numHouses ≠ done.length := by
          intro hc
          apply heq
          rw [← hc, Nat.add_mod_right]
          exact Nat.mod_eq_of_lt hh
        have key : ∀ j, j ≠ done.length → (done ++ [x])[j]? = done[j]? := by
          intro j hj
          by_cases hjl : j < done.length
          · exact List.getElem?_append_left hjl
          · rw [List.getElem?_eq_none (by simp; omega), List.getElem?_eq_none (by omega)]
        rw [key h hne1, key _ hne2]
    · rw [List.getElem?_eq_none (by simp; omega), List.getElem?_eq_none (by simp; omega)]

theorem dealToHouses_spec {β : Type} (numHouses : Nat) (rest done : List β)
    (hlen : done.length + rest.length ≤ 2 * numHouses) (hpos : rest ≠ [] → 0 < numHouses) :
    dealToHouses numHouses rest (done.length % numHouses)
        ((List.range numHouses).map (fun h =>
          (done[h]?).toList ++ (done[h + numHouses]?).toList)) =
      some ((List.range numHouses).map (fun h =>
        ((done ++ rest)[h]?).toList ++ ((done ++ rest)[h + numHouses]?).toList)) := by
  induction rest generalizing done with
  | nil => simp [dealToHouses]
  | cons x rest ih =>
    have hp : 0 < numHouses := hpos (by simp)
    have hl : done.length < 2 * numHouses := by
      simp only [List.length_cons] at hlen
      omega
    obtain ⟨house, hget, hset⟩ := housesAfter_step numHouses done x hp hl
    simp only [dealToHouses, hget, hset]
    have hidx : (done.length % numHouses + 1) % numHouses = (done ++ [x]).length % numHouses := by
      rw [List.length_append, List.length_singleton, Nat.mod_add_mod]
    rw [hidx]
    have := ih (done ++ [x]) (by simp only [List.length_append, List.length_cons,
      List.length_nil] at hlen ⊢; omega) (fun _ => hp)
    rw [this]
    simp

theorem set_push_flatten_perm {β : Type} (houses : List (List β)) (i : Nat) (house : List β)
    (x : β) (h : houses[i]? = some house) :
    ((houses.set i (house ++ [x])).flatten).Perm (houses.flatten ++ [x]) := by
  induction houses generalizing i with
  | nil => simp at h
  | cons a tl ih =>
    cases i with
    | zero =>
      simp only [List.getElem?_cons_zero, Option.some.injEq] at h
      subst h
      simp only [List.set_cons_zero, List.flatten_cons, List.append_assoc]
      exact List.Perm.append_left _ List.perm_append_comm
    | succ j =>
      simp only [List.getElem?_cons_succ] at h
      simp only [List.set_cons_succ, List.flatten_cons, List.append_assoc]
      exact List.Perm.append_left _ (ih j h)

theorem dealToHouses_perm {β : Type} (numHouses : Nat) (rest : List β) (i : Nat)
    (houses res : List (List β)) (h : dealToHouses numHouses rest i houses = some res) :
    res.flatten.Perm (houses.flatten ++ rest) := by
  induction rest generalizing i houses with
  | nil =>
    simp only [dealToHouses, Option.some.injEq] at h
    subst h
    simp
  | cons x rest ih =>
    unfold dealToHouses at h
    cases hget : houses[i]? with
    | none => simp [hget] at h
    | some house =>
      simp only [hget] at h
      refine (ih _ _ h).trans ?_
      refine ((set_push_flatten_perm houses i house x hget).append_right rest).trans ?_
      simp

/-- C13: for `p` pairings the grouping returns `(p + 1) / 2` houses, the
ceiling of `p / 2`; house `h` holds pairing `h`, followed by pairing
`h + (p + 1) / 2` when there is one; so no house holds more than two
pairings, and the houses together hold the pairings, each once. -/
theorem groupIntoHouses_roundRobin {β : Type} (pairings : List β) :
    ∃ houses, groupIntoHouses pairings = some houses ∧
      houses.length = (pairings.length + 1) / 2 ∧
      (∀ h, h < (pairings.length + 1) / 2 → ∃ x, pairings[h]? = some x ∧
        houses[h]? = some (x :: (pairings[h + (pairings.length + 1) / 2]?).toList)) ∧
      (∀ house ∈ houses, house.length ≤ 2) ∧
      houses.flatten.Perm pairings := by
  have hspec := dealToHouses_spec ((pairings.length + 1) / 2) pairings []
    (by simp only [List.length_nil]; omega)
    (by
      intro hne
      have : 0 < pairings.length := List.length_pos.2 hne
      omega)
  have hstart : (List.range ((pairings.length + 1) / 2)).map (fun h =>
      (([] : List β)[h]?).toList ++ (([] : List β)[h + (pairings.length + 1) / 2]?).toList)
      = List.replicate ((pairings.length + 1) / 2) [] := by
    apply List.ext_getElem?
    intro h
    by_cases hh : h < (pairings.length + 1) / 2
    · simp [List.getElem?_range hh, List.getElem?_replicate, hh]
    · rw [List.getElem?_eq_none (by simp; omega), List.getElem?_eq_none (by simp; omega)]
  simp only [List.length_nil, Nat.zero_mod, List.nil_append] at hspec
  rw [hstart] at hspec
  refine ⟨_, hspec, by simp, ?_, ?_, ?_⟩
  · intro h hh
    have hlt : h < pairings.length := by omega
    refine ⟨pairings[h], List.getElem?_eq_getElem hlt, ?_⟩
    simp [List.getElem?_range hh, List.getElem?_eq_getElem hlt]
  · intro house hmem
    obtain ⟨h, -, rfl⟩ := List.mem_map.1 hmem
    rw [List.length_append]
    have h1 : ∀ o : Option β, o.toList.length ≤ 1 := by
      intro o; cases o <;> simp
    have := h1 pairings[h]?
    have := h1 pairings[h + (pairings.length + 1) / 2]?
    omega
  · have := dealToHouses_perm _ _ _ _ _ hspec
    simpa using this

/-- The statement of C13 at five pairings: three houses, holding the pairings
0 and 3, 1 and 4, and 2. -/
theorem groupIntoHouses_roundRobin_witness :
    groupIntoHouses [0, 1, 2, 3, 4] = some [[0, 3], [1, 4], [2]] ∧
    ∃ houses, groupIntoHouses [0, 1, 2, 3, 4] = some houses ∧
      houses.length = ([0, 1, 2, 3, 4].length + 1) / 2 ∧
      (∀ h, h < ([0, 1, 2, 3, 4].length + 1) / 2 → ∃ x, [0, 1, 2, 3, 4][h]? = some x ∧
        houses[h]? = some (x ::
          ([0, 1, 2, 3, 4][h + ([0, 1, 2, 3, 4].length + 1) / 2]?).toList)) ∧
      (∀ house ∈ houses, house.length ≤ 2) ∧
      houses.flatten.Perm [0, 1, 2, 3, 4] :=
  ⟨by decide, groupIntoHouses_roundRobin [0, 1, 2, 3, 4]⟩

/-! ## Pairings from the available players -/

theorem two_le_length_split {β : Type} (l : List β) (h : 2 ≤ l.length) :
    ∃ init y x, l = init ++ [y, x] := by
  have hne : l ≠ [] := by intro hc; rw [hc] at h; simp at h
  have h1 := (List.dropLast_append_getLast hne).symm
  have hne2 : l.dropLast ≠ [] := by
    intro hc
    have := congrArg List.length hc
    simp at this
    omega
  have h2 := (List.dropLast_append_getLast hne2).symm
  refine ⟨l.dropLast.dropLast, l.dropLast.getLast hne2, l.getLast hne, ?_⟩
  conv_lhs => rw [h1, h2]
  simp

theorem two_le_length_ends {β : Type} (l : List β) (h : 2 ≤ l.length) :
    ∃ a mid b, l = a :: (mid ++ [b]) := by
  cases l with
  | nil => simp at h
  | cons a tl =>
    have hne : tl ≠ [] := by intro hc; rw [hc] at h; simp at h
    exact ⟨a, tl.dropLast, tl.getLast hne, by rw [List.dropLast_append_getLast hne]⟩

theorem balancedLoop_nil {γ β : Type} (label : Player γ → β) (random : Nat → Bool) (k : Nat)
    (females : List (Player γ)) :
    balancedLoop label random k [] females = ([], [], females) := by
  simp [balancedLoop]

theorem balancedLoop_single {γ β : Type} (label : Player γ → β) (random : Nat → Bool) (k : Nat)
    (m : Player γ) (females : List (Player γ)) :
    balancedLoop label random k [m] females = ([], [m], females) := by
  simp [balancedLoop]

theorem balancedLoop_short {γ β : Type} (label : Player γ → β) (random : Nat → Bool) (k : Nat)
    (males females : List (Player γ)) (h : females.length < 2) :
    balancedLoop label random k males females = ([], males, females) := by
  match males with
  | [] => exact balancedLoop_nil label random k females
  | [m] => exact balancedLoop_single label random k m females
  | m0 :: m1 :: ms => simp [balancedLoop, Nat.not_le.2 h]

theorem balancedLoop_round {γ β : Type} (label : Player γ → β) (random : Nat → Bool) (k : Nat)
    (m0 m1 : Player γ) (males init : List (Player γ)) (f1 f0 : Player γ) :
    balancedLoop label random k (m0 :: m1 :: males) (init ++ [f1, f0]) =
      ([label m0, label (if random k then f1 else f0)] ::
        [label m1, label (if random k then f0 else f1)] ::
          (balancedLoop label random (k + 1) males init).1,
        (balancedLoop label random (k + 1) males init).2) := by
  have h1 : (init ++ [f1, f0]).getLast? = some f0 := by simp
  have h2 : (init ++ [f1, f0]).dropLast = init ++ [f1] := by
    have : init ++ [f1, f0] = (init ++ [f1]) ++ [f0] := by simp
    rw [this, List.dropLast_concat]
  have h3 : (init ++ [f1]).getLast? = some f1 := by simp
  have h4 : (init ++ [f1]).dropLast = init := List.dropLast_concat
  have hlen : 2 ≤ (init ++ [f1, f0]).length := by simp
  rw [balancedLoop]
  simp only [hlen, if_true, h1, h2, h3, h4]
  cases random k <;> rfl

theorem leftoverLoop_pair {γ β : Type} (label : Player γ → β) (fuel : Nat) (a b : Player γ)
    (mid : List (Player γ)) :
    leftoverLoop label (fuel + 1) (a :: (mid ++ [b])) =
      [label a, label b] :: leftoverLoop label fuel mid := by
  have h1 : (a :: (mid ++ [b])).getLast? = some b := by
    have : a :: (mid ++ [b]) = (a :: mid) ++ [b] := by simp
    rw [this, List.getLast?_concat]
  have h2 : (mid ++ [b]).dropLast = mid := List.dropLast_concat
  have hlen : 2 ≤ (a :: (mid ++ [b])).length := by simp
  rw [leftoverLoop]
  simp only [hlen, if_true, List.head?_cons, h1, List.tail_cons, h2]

theorem leftoverLoop_single {γ β : Type} (label : Player γ → β) (fuel : Nat) (a : Player γ) :
    leftoverLoop label (fuel + 1) [a] = [[label a]] := by
  simp [leftoverLoop]

theorem leftoverLoop_nil {γ β : Type} (label : Player γ → β) (fuel : Nat) :
    leftoverLoop label fuel ([] : List (Player γ)) = [] := by
  cases fuel <;> simp [leftoverLoop]

/-- The strictly descending list of four players that sorting a pool of four
players of pairwise distinct ratings gives. -/
theorem insertionSort_four (ps : List (Player α)) (hlen : ps.length = 4)
    (hd : (ps.map (fun p => p.rating)).Nodup) :
    ∃ p1 p2 p3 p4, ps.insertionSort ratingDescending = [p1, p2, p3, p4] ∧
      [p1, p2, p3, p4].Perm ps ∧
      p1.rating > p2.rating ∧ p2.rating > p3.rating ∧ p3.rating > p4.rating := by
  have hperm := List.perm_insertionSort ratingDescending ps
  have hstrict := insertionSort_strict ps hd
  have hl : (ps.insertionSort ratingDescending).length = 4 := by rw [hperm.length_eq, hlen]
  match hs : ps.insertionSort ratingDescending, hl with
  | [p1, p2, p3, p4], _ =>
    rw [hs] at hperm hstrict
    simp only [List.Sorted, List.pairwise_cons, List.mem_cons, List.mem_singleton,
      forall_eq_or_imp, forall_eq] at hstrict
    exact ⟨p1, p2, p3, p4, rfl, hperm, hstrict.1.1, hstrict.2.1.1, hstrict.2.2.1.1⟩

theorem isMale_not_isFemale {γ : Type} (p : Player γ) (h : isMale p = true) :
    isFemale p = false := by
  unfold isMale at h
  unfold isFemale
  have hg : p.gender = some "male".toList := by simpa using h
  rw [hg]
  decide

/-- C11: from a pool with four males and four females of pairwise distinct
ratings, whatever the random sort does, the pairing list is four pairs of a
male and a female: the two highest-rated males come first, each with one of the
two lowest-rated females, then the two lowest-rated males, each with one of the
two highest-rated females. -/
theorem pairings_four_males_four_females {β : Type} (label : Player α → β)
    (random : Nat → Bool) (availablePlayerObjects : List (Player α))
    (hm : (availablePlayerObjects.filter isMale).length = 4)
    (hf : (availablePlayerObjects.filter isFemale).length = 4)
    (hd : (availablePlayerObjects.map (fun p => p.rating)).Nodup) :
    ∃ m1 m2 m3 m4 f1 f2 f3 f4,
      [m1, m2, m3, m4].Perm (availablePlayerObjects.filter isMale) ∧
      [f1, f2, f3, f4].Perm (availablePlayerObjects.filter isFemale) ∧
      (m1.rating > m2.rating ∧ m2.rating > m3.rating ∧ m3.rating > m4.rating) ∧
      (f1.rating > f2.rating ∧ f2.rating > f3.rating ∧ f3.rating > f4.rating) ∧
      (∀ m ∈ [m1, m2, m3, m4], isMale m = true ∧ isFemale m = false) ∧
      (∀ f ∈ [f1, f2, f3, f4], isFemale f = true ∧ isMale f = false) ∧
      pairingsFromObjects label random availablePlayerObjects =
        [[label m1, label (if random 0 then f3 else f4)],
         [label m2, label (if random 0 then f4 else f3)],
         [label m3, label (if random 1 then f1 else f2)],
         [label m4, label (if random 1 then f2 else f1)]] := by
  have hdm : ((availablePlayerObjects.filter isMale).map (fun p => p.rating)).Nodup :=
    hd.sublist ((List.filter_sublist _).map _)
  have hdf : ((availablePlayerObjects.filter isFemale).map (fun p => p.rating)).Nodup :=
    hd.sublist ((List.filter_sublist _).map _)
  obtain ⟨m1, m2, m3, m4, hms, hmp, hm12, hm23, hm34⟩ := insertionSort_four _ hm hdm
  obtain ⟨f1, f2, f3, f4, hfs, hfp, hf12, hf23, hf34⟩ := insertionSort_four _ hf hdf
  refine ⟨m1, m2, m3, m4, f1, f2, f3, f4, hmp, hfp, ⟨hm12, hm23, hm34⟩, ⟨hf12, hf23, hf34⟩,
    ?_, ?_, ?_⟩
  · intro m hmem
    have h1 : isMale m = true := (List.mem_filter.1 (hmp.subset hmem)).2
    exact ⟨h1, isMale_not_isFemale m h1⟩
  · intro f hmem
    have h1 : isFemale f = true := (List.mem_filter.1 (hfp.subset hmem)).2
    refine ⟨h1, ?_⟩
    cases hmale : isMale f with
    | false => rfl
    | true => rw [isMale_not_isFemale f hmale] at h1; cases h1
  · unfold pairingsFromObjects
    simp only [hms, hfs]
    have e1 : balancedLoop label random 0 [m1, m2, m3, m4] [f1, f2, f3, f4] =
        ([[label m1, label (if random 0 then f3 else f4)],
          [label m2, label (if random 0 then f4 else f3)],
          [label m3, label (if random 1 then f1 else f2)],
          [label m4, label (if random 1 then f2 else f1)]], [], []) := by
      have r0 := balancedLoop_round label random 0 m1 m2 [m3, m4] [f1, f2] f3 f4
      have r1 := balancedLoop_round label random 1 m3 m4 [] [] f1 f2
      rw [balancedLoop_nil] at r1
      simp only [List.nil_append, List.cons_append] at r0 r1
      rw [r0, r1]
    rw [e1]
    simp [leftoverLoop_nil]

/-- The leftover phase pairs the front of the pool with its back: with enough
rounds, entry `i` is made of `pool[i]` and `pool[length - 1 - i]`, and a pool
of odd length ends with its middle player alone. -/
theorem leftoverLoop_entries {γ β : Type} (label : Player γ → β) (fuel : Nat)
    (pool : List (Player γ)) (hfuel : pool.length < 2 * fuel) :
    (leftoverLoop label fuel pool).length = (pool.length + 1) / 2 ∧
      (∀ i, i < pool.length / 2 → ∃ a b, pool[i]? = some a ∧
        pool[pool.length - 1 - i]? = some b ∧
        (leftoverLoop label fuel pool)[i]? = some [label a, label b]) ∧
      (pool.length % 2 = 1 → ∃ c, pool[pool.length / 2]? = some c ∧
        (leftoverLoop label fuel pool)[pool.length / 2]? = some [label c]) := by
  induction fuel generalizing pool with
  | zero => simp at hfuel
  | succ fuel ih =>
    by_cases h2 : 2 ≤ pool.length
    · obtain ⟨a, mid, b, rfl⟩ := two_le_length_ends pool h2
      have hmid : mid.length < 2 * fuel := by
        simp only [List.length_cons, List.length_append, List.length_singleton] at hfuel
        omega
      obtain ⟨ih1, ih2, ih3⟩ := ih mid hmid
      have hlen : (a :: (mid ++ [b])).length = mid.length + 2 := by simp
      rw [leftoverLoop_pair, hlen]
      refine ⟨by simp only [List.length_cons, ih1]; omega, ?_, ?_⟩
      · intro i hi
        cases i with
        | zero =>
          refine ⟨a, b, List.getElem?_cons_zero, ?_, List.getElem?_cons_zero⟩
          have : mid.length + 2 - 1 - 0 = mid.length + 1 := by omega
          rw [this, List.getElem?_cons_succ]
          simp
        | succ j =>
          have hj : j < mid.length / 2 := by omega
          obtain ⟨x, y, hx, hy, hxy⟩ := ih2 j hj
          refine ⟨x, y, ?_, ?_, ?_⟩
          · rw [List.getElem?_cons_succ, List.getElem?_append_left (by omega)]
            exact hx
          · have : mid.length + 2 - 1 - (j + 1) = (mid.length - 1 - j) + 1 := by omega
            rw [this, List.getElem?_cons_succ, List.getElem?_append_left (by omega)]
            exact hy
          · rw [List.getElem?_cons_succ]
            exact hxy
      · intro hodd
        have hodd2 : mid.length % 2 = 1 := by omega
        obtain ⟨c, hc, hcc⟩ := ih3 hodd2
        have : (mid.length + 2) / 2 = mid.length / 2 + 1 := by omega
        refine ⟨c, ?_, ?_⟩
        · rw [this, List.getElem?_cons_succ, List.getElem?_append_left (by omega)]
          exact hc
        · rw [this, List.getElem?_cons_succ]
          exact hcc
    · match pool with
      | [] => simp [leftoverLoop_nil]
      | [a] => simp [leftoverLoop_single]
      | _ :: _ :: _ => simp at h2

/-- C12, as stated, fails: with three males rated 1400, 1300 and 1200 and one
female rated 1800 left over, the first pair is made of the male rated 1400 and
the female rated 1800, while the lowest-rated player left is the male rated
1200. -/
theorem leftover_pair_not_highest_lowest :
    pairingsFromObjects (pairingLabel stdBuiltins) (fun _ => false) mixedLeftover =
      [["Mb (4.0)".toList, "Fa (8.0)".toList], ["Mc (3.0)".toList, "Md (2.0)".toList]] ∧
    genderedPlayer "Md" "male" 1200 ∈ mixedLeftover ∧
    (∀ p ∈ mixedLeftover, (genderedPlayer "Md" "male" 1200).rating ≤ p.rating) ∧
    pairingLabel stdBuiltins (genderedPlayer "Md" "male" 1200) ∉
      ["Mb (4.0)".toList, "Fa (8.0)".toList] := by
  refine ⟨by decide!, by decide, by decide, by decide!⟩

/-- C12, amended: every pair of the leftover phase is made of the first and
the last player still in the pool, the leftover males in descending order
followed by the leftover females in descending order; when the pool as a whole
is in descending order of rating, these are a highest-rated and a lowest-rated
player among those still in it. -/
theorem leftover_pairs_front_back {β : Type} (label : Player α → β)
    (pool : List (Player α)) (i : Nat) (hi : i < pool.length / 2) :
    ∃ a b, pool[i]? = some a ∧ pool[pool.length - 1 - i]? = some b ∧
      (leftoverLoop label (pool.length + 1) pool)[i]? = some [label a, label b] ∧
      (pool.Sorted ratingDescending → ∀ j c, i ≤ j → j ≤ pool.length - 1 - i →
        pool[j]? = some c → c.rating ≤ a.rating ∧ b.rating ≤ c.rating) := by
  obtain ⟨-, h2, -⟩ := leftoverLoop_entries label (pool.length + 1) pool (by omega)
  obtain ⟨a, b, ha, hb, hab⟩ := h2 i hi
  refine ⟨a, b, ha, hb, hab, ?_⟩
  intro hs j c hij hjl hc
  have hle : ∀ (x y : Nat) (u v : Player α), x ≤ y → pool[x]? = some u → pool[y]? = some v →
      v.rating ≤ u.rating := by
    intro x y u v hxy hu hv
    rcases Nat.lt_or_eq_of_le hxy with hlt | heq
    · obtain ⟨hx1, hx2⟩ := List.getElem?_eq_some_iff.1 hu
      obtain ⟨hy1, hy2⟩ := List.getElem?_eq_some_iff.1 hv
      have := List.pairwise_iff_getElem.1 hs x y hx1 hy1 hlt
      rw [hx2, hy2] at this
      exact this
    · subst heq
      rw [hu] at hv
      cases hv
      exact le_refl _
  exact ⟨hle i j a c hij ha hc, hle j _ c b hjl hc hb⟩

theorem balancedLoop_induction {γ : Type} (P : Nat → List (Player γ) → List (Player γ) → Prop)
    (hstop : ∀ k males females, males.length < 2 ∨ females.length < 2 → P k males females)
    (hround : ∀ k m0 m1 males init f1 f0, P (k + 1) males init →
      P k (m0 :: m1 :: males) (init ++ [f1, f0])) :
    ∀ k males females, P k males females := by
  have key : ∀ n k males females, males.length ≤ n → P k males females := by
    intro n
    induction n with
    | zero =>
      intro k males females h
      exact hstop k males females (Or.inl (by omega))
    | succ n ih =>
      intro k males females h
      by_cases hf : females.length < 2
      · exact hstop k males females (Or.inr hf)
      · match males, h with
        | [], _ => exact hstop k [] females (Or.inl (by simp))
        | [m], _ => exact hstop k [m] females (Or.inl (by simp))
        | m0 :: m1 :: ms, h =>
          obtain ⟨init, f1, f0, rfl⟩ := two_le_length_split females (by omega)
          apply hround
          apply ih
          simp only [List.length_cons] at h
          omega
  intro k males females
  exact key males.length k males females (le_refl _)

theorem balancedLoop_stop {γ β : Type} (label : Player γ → β) (random : Nat → Bool) (k : Nat)
    (males females : List (Player γ)) (h : males.length < 2 ∨ females.length < 2) :
    balancedLoop label random k males females = ([], males, females) := by
  rcases h with h | h
  · match males, h with
    | [], _ => exact balancedLoop_nil label random k females
    | [m], _ => exact balancedLoop_single label random k m females
    | _ :: _ :: _, h => simp only [List.length_cons] at h; omega
  · exact balancedLoop_short label random k males females h

/-- The pairs of the first loop are the labels of pairs of players, and the
pools it leaves do not depend on the label. -/
theorem balancedLoop_label {γ β : Type} (label : Player γ → β) (random : Nat → Bool)
    (k : Nat) (males females : List (Player γ)) :
    balancedLoop label random k males females =
      ((balancedLoop id random k males females).1.map (List.map label),
        (balancedLoop id random k males females).2) := by
  refine balancedLoop_induction
    (fun k males females => balancedLoop label random k males females =
      ((balancedLoop id random k males females).1.map (List.map label),
        (balancedLoop id random k males females).2)) ?_ ?_ k males females
  · intro k males females h
    simp only [balancedLoop_stop _ random k males females h, List.map_nil]
  · intro k m0 m1 males init f1 f0 ih
    simp only [balancedLoop_round, ih, List.map_cons, List.map_nil, id]

/-- The first loop moves players from the pools into pairs: pairs and pools
left hold the players of the pools it started from, and every pair has two. -/
theorem balancedLoop_players {γ : Type} (random : Nat → Bool) (k : Nat)
    (males females : List (Player γ)) :
    ((balancedLoop id random k males females).1.flatten ++
      ((balancedLoop id random k males females).2.1 ++
        (balancedLoop id random k males females).2.2)).Perm (males ++ females) ∧
      (∀ e ∈ (balancedLoop id random k males females).1, e.length = 2) := by
  refine balancedLoop_induction
    (fun k males females =>
      ((balancedLoop id random k males females).1.flatten ++
        ((balancedLoop id random k males females).2.1 ++
          (balancedLoop id random k males females).2.2)).Perm (males ++ females) ∧
        (∀ e ∈ (balancedLoop id random k males females).1, e.length = 2)) ?_ ?_ k males females
  · intro k males females h
    simp [balancedLoop_stop _ random k males females h]
  · intro k m0 m1 males init f1 f0 ih
    obtain ⟨ih1, ih2⟩ := ih
    rw [balancedLoop_round]
    refine ⟨?_, ?_⟩
    · simp only [id, List.flatten_cons, List.cons_append, List.nil_append, List.append_assoc]
      have hpairs : ([if random k then f1 else f0, if random k then f0 else f1] :
          List (Player γ)).Perm [f1, f0] := by
        cases random k
        · simp only [Bool.false_eq_true, if_false]
          exact List.Perm.swap _ _ _
        · simp only [if_true]
          exact List.Perm.refl _
      refine List.Perm.cons m0 ?_
      refine (List.Perm.swap m1 _ _).trans ?_
      refine List.Perm.cons m1 ?_
      have h1 : ((if random k then f1 else f0) :: (if random k then f0 else f1) ::
          ((balancedLoop id random (k + 1) males init).1.flatten ++
            ((balancedLoop id random (k + 1) males init).2.1 ++
              (balancedLoop id random (k + 1) males init).2.2))).Perm
          ([f1, f0] ++ (males ++ init)) := by
        have := List.Perm.append hpairs ih1
        simpa using this
      refine h1.trans ?_
      have h2 : ([f1, f0] ++ (males ++ init)).Perm ((males ++ init) ++ [f1, f0]) :=
        List.perm_append_comm
      refine h2.trans ?_
      simp
    · intro e he
      simp only [List.mem_cons] at he
      rcases he with he | he | he
      · rw [he]; rfl
      · rw [he]; rfl
      · exact ih2 e he

/-- The entries of the leftover phase are the labels of entries of players. -/
theorem leftoverLoop_label {γ β : Type} (label : Player γ → β) (fuel : Nat)
    (pool : List (Player γ)) :
    leftoverLoop label fuel pool = (leftoverLoop id fuel pool).map (List.map label) := by
  induction fuel generalizing pool with
  | zero => simp [leftoverLoop]
  | succ fuel ih =>
    by_cases h2 : 2 ≤ pool.length
    · obtain ⟨a, mid, b, rfl⟩ := two_le_length_ends pool h2
      rw [leftoverLoop_pair, leftoverLoop_pair, ih mid]
      simp
    · match pool with
      | [] => simp [leftoverLoop_nil]
      | [a] => simp [leftoverLoop_single]
      | _ :: _ :: _ => simp at h2

/-- With enough rounds the leftover phase uses every player of the pool once:
in pairs, and in one entry of a single player exactly when the pool is odd. -/
theorem leftoverLoop_players {γ : Type} (fuel : Nat) (pool : List (Player γ))
    (hfuel : pool.length < 2 * fuel) :
    (leftoverLoop id fuel pool).flatten.Perm pool ∧
      (∀ e ∈ leftoverLoop id fuel pool, e.length = 2 ∨ e.length = 1) ∧
      ((leftoverLoop id fuel pool).filter (fun e => e.length = 1)).length
        = pool.length % 2 := by
  induction fuel generalizing pool with
  | zero => simp at hfuel
  | succ fuel ih =>
    by_cases h2 : 2 ≤ pool.length
    · obtain ⟨a, mid, b, rfl⟩ := two_le_length_ends pool h2
      have hmid : mid.length < 2 * fuel := by
        simp only [List.length_cons, List.length_append, List.length_singleton] at hfuel
        omega
      obtain ⟨ih1, ih2, ih3⟩ := ih mid hmid
      rw [leftoverLoop_pair]
      refine ⟨?_, ?_, ?_⟩
      · simp only [id, List.flatten_cons, List.cons_append, List.nil_append]
        refine List.Perm.cons a ?_
        have h1 : (b :: (leftoverLoop id fuel mid).flatten).Perm (b :: mid) :=
          List.Perm.cons b ih1
        refine h1.trans ?_
        have h2 : (b :: mid).Perm (mid ++ [b]) := by
          have := @List.perm_append_comm _ [b] mid
          simpa using this
        exact h2
      · intro e he
        rcases List.mem_cons.1 he with he | he
        · rw [he]; exact Or.inl rfl
        · exact ih2 e he
      · have hl : (a :: (mid ++ [b])).length = mid.length + 2 := by simp
        rw [List.filter_cons_of_neg (by simp), ih3, hl]
        omega
    · match pool with
      | [] => simp [leftoverLoop_nil]
      | [a] => simp [leftoverLoop_single]
      | _ :: _ :: _ => simp at h2

/-- The pairing list is the list of labels of a list of entries of players. -/
theorem pairingsFromObjects_label {β : Type} (label : Player α → β) (random : Nat → Bool)
    (availablePlayerObjects : List (Player α)) :
    pairingsFromObjects label random availablePlayerObjects =
      (pairingsFromObjects id random availablePlayerObjects).map (List.map label) := by
  unfold pairingsFromObjects
  simp only
  rw [balancedLoop_label label, leftoverLoop_label label]
  simp

theorem filter_male_female_perm {γ : Type} (l : List (Player γ))
    (hg : ∀ p ∈ l, isMale p = true ∨ isFemale p = true) :
    (l.filter isMale ++ l.filter isFemale).Perm l := by
  have hfem : l.filter isFemale = l.filter (fun p => !isMale p) := by
    apply List.filter_congr
    intro p hp
    cases hm : isMale p with
    | true => simp [isMale_not_isFemale p hm]
    | false =>
      rcases hg p hp with h | h
      · rw [hm] at h; cases h
      · simp [h]
  rw [hfem]
  exact List.filter_append_perm isMale l

theorem flatten_length_of_pairs {β : Type} (L : List (List β))
    (h : ∀ e ∈ L, e.length = 2) : L.flatten.length = 2 * L.length := by
  induction L with
  | nil => rfl
  | cons e L ih =>
    rw [List.flatten_cons, List.length_append, h e (List.mem_cons_self _ _),
      ih (fun x hx => h x (List.mem_cons_of_mem _ hx)), List.length_cons]
    omega

/-- C20: when the available players are pairwise distinct and each is male or
female, then whatever the random sort does, the pairing list is the list of
labels of entries that together hold every available player once: the entries
are pairwise disjoint pairs, but for at most one entry of a single player, and
there is such an entry only when the number of players is odd. -/
theorem pairings_cover_pool (random : Nat → Bool) (availablePlayerObjects : List (Player α))
    (hdistinct : availablePlayerObjects.Nodup)
    (hg : ∀ p ∈ availablePlayerObjects, isMale p = true ∨ isFemale p = true) :
    ∃ entries : List (List (Player α)),
      (∀ (β : Type) (label : Player α → β),
        pairingsFromObjects label random availablePlayerObjects =
          entries.map (List.map label)) ∧
      entries.flatten.Perm availablePlayerObjects ∧
      (∀ p ∈ availablePlayerObjects, ∃ e ∈ entries, p ∈ e) ∧
      entries.Pairwise List.Disjoint ∧
      (∀ e ∈ entries, e.Nodup ∧ (e.length = 2 ∨ e.length = 1)) ∧
      (entries.filter (fun e => e.length = 1)).length ≤ 1 ∧
      ((∃ e ∈ entries, e.length = 1) → availablePlayerObjects.length % 2 = 1) := by
  have hlo := leftoverLoop_players
    (((balancedLoop id random 0
        ((availablePlayerObjects.filter isMale).insertionSort ratingDescending)
        ((availablePlayerObjects.filter isFemale).insertionSort ratingDescending)).2.1 ++
      (balancedLoop id random 0
        ((availablePlayerObjects.filter isMale).insertionSort ratingDescending)
        ((availablePlayerObjects.filter isFemale).insertionSort ratingDescending)).2.2).length
          + 1)
    ((balancedLoop id random 0
        ((availablePlayerObjects.filter isMale).insertionSort ratingDescending)
        ((availablePlayerObjects.filter isFemale).insertionSort ratingDescending)).2.1 ++
      (balancedLoop id random 0
        ((availablePlayerObjects.filter isMale).insertionSort ratingDescending)
        ((availablePlayerObjects.filter isFemale).insertionSort ratingDescending)).2.2)
    (by omega)
  have hbal := balancedLoop_players random 0
    ((availablePlayerObjects.filter isMale).insertionSort ratingDescending)
    ((availablePlayerObjects.filter isFemale).insertionSort ratingDescending)
  generalize hB : balancedLoop id random 0
    ((availablePlayerObjects.filter isMale).insertionSort ratingDescending)
    ((availablePlayerObjects.filter isFemale).insertionSort ratingDescending) = bal at hlo hbal
  obtain ⟨hlo1, hlo2, hlo3⟩ := hlo
  obtain ⟨hbal1, hbal2⟩ := hbal
  have hentries : pairingsFromObjects id random availablePlayerObjects =
      bal.1 ++ leftoverLoop id ((bal.2.1 ++ bal.2.2).length + 1) (bal.2.1 ++ bal.2.2) := by
    unfold pairingsFromObjects
    simp only [hB]
  have hperm : (pairingsFromObjects id random availablePlayerObjects).flatten.Perm
      availablePlayerObjects := by
    rw [hentries, List.flatten_append]
    refine (List.Perm.append_left _ hlo1).trans ?_
    refine hbal1.trans ?_
    refine (List.Perm.append (List.perm_insertionSort _ _) (List.perm_insertionSort _ _)).trans ?_
    exact filter_male_female_perm _ hg
  have hnodup : (pairingsFromObjects id random availablePlayerObjects).flatten.Nodup :=
    hperm.nodup_iff.2 hdistinct
  have hnd := List.nodup_flatten.1 hnodup
  have hsingles : ((pairingsFromObjects id random availablePlayerObjects).filter
      (fun e => e.length = 1)).length = (bal.2.1 ++ bal.2.2).length % 2 := by
    rw [hentries, List.filter_append, List.length_append, hlo3]
    have : bal.1.filter (fun e => e.length = 1) = [] := by
      rw [List.filter_eq_nil_iff]
      intro e he
      rw [hbal2 e he]
      simp
    rw [this]
    simp
  refine ⟨pairingsFromObjects id random availablePlayerObjects, ?_, hperm, ?_, hnd.2, ?_, ?_, ?_⟩
  · intro β label
    exact pairingsFromObjects_label label random availablePlayerObjects
  · intro p hp
    have := hperm.symm.subset hp
    obtain ⟨e, he, hpe⟩ := List.mem_flatten.1 this
    exact ⟨e, he, hpe⟩
  · intro e he
    refine ⟨hnd.1 e he, ?_⟩
    rw [hentries] at he
    rcases List.mem_append.1 he with h | h
    · exact Or.inl (hbal2 e h)
    · exact hlo2 e h
  · rw [hsingles]
    omega
  · rintro ⟨e, he, hlen⟩
    have hmem : e ∈ (pairingsFromObjects id random availablePlayerObjects).filter
        (fun e => e.length = 1) := List.mem_filter.2 ⟨he, by simpa using hlen⟩
    have hposlen := List.length_pos_of_mem hmem
    rw [hsingles] at hposlen
    have hlen2 := hperm.length_eq
    rw [hentries, List.flatten_append, List.length_append, hlo1.length_eq,
      flatten_length_of_pairs _ hbal2] at hlen2
    omega

/-- The statement of C11 at a pool of four males and four females, with a
random sort that exchanges the two females of the first round only. -/
theorem pairings_four_males_four_females_witness :
    (poolFourFour.filter isMale).length = 4 ∧
    (poolFourFour.filter isFemale).length = 4 ∧
    (poolFourFour.map (fun p => p.rating)).Nodup ∧
    pairingsFromObjects (pairingLabel stdBuiltins) (fun k => k == 0) poolFourFour =
      [["Mb (7.0)".toList, "Fd (3.5)".toList], ["Mc (6.0)".toList, "Fb (2.5)".toList],
       ["Ma (4.0)".toList, "Fc (5.0)".toList], ["Md (3.0)".toList, "Fa (8.0)".toList]] ∧
    ∃ m1 m2 m3 m4 f1 f2 f3 f4,
      [m1, m2, m3, m4].Perm (poolFourFour.filter isMale) ∧
      [f1, f2, f3, f4].Perm (poolFourFour.filter isFemale) ∧
      (m1.rating > m2.rating ∧ m2.rating > m3.rating ∧ m3.rating > m4.rating) ∧
      (f1.rating > f2.rating ∧ f2.rating > f3.rating ∧ f3.rating > f4.rating) ∧
      (∀ m ∈ [m1, m2, m3, m4], isMale m = true ∧ isFemale m = false) ∧
      (∀ f ∈ [f1, f2, f3, f4], isFemale f = true ∧ isMale f = false) ∧
      pairingsFromObjects (pairingLabel stdBuiltins) (fun k => k == 0) poolFourFour =
        [[pairingLabel stdBuiltins m1,
            pairingLabel stdBuiltins (if (fun k => k == 0) 0 then f3 else f4)],
         [pairingLabel stdBuiltins m2,
            pairingLabel stdBuiltins (if (fun k => k == 0) 0 then f4 else f3)],
         [pairingLabel stdBuiltins m3,
            pairingLabel stdBuiltins (if (fun k => k == 0) 1 then f1 else f2)],
         [pairingLabel stdBuiltins m4,
            pairingLabel stdBuiltins (if (fun k => k == 0) 1 then f2 else f1)]] :=
  ⟨by decide, by decide, by decide, by decide!,
    pairings_four_males_four_females (pairingLabel stdBuiltins) (fun k => k == 0) poolFourFour
      (by decide) (by decide) (by decide)⟩

/-- The amended C12 at the first pair of a pool of five males in descending
order; the pairing list of the five males pairs 1500 with 1100, 1400 with
1200, and leaves 1300 alone. -/
theorem leftover_pairs_front_back_witness :
    0 < (fiveMales.insertionSort ratingDescending).length / 2 ∧
    pairingsFromObjects (pairingLabel stdBuiltins) (fun _ => false) fiveMales =
      [["Ma (5.0)".toList, "Me (1.0)".toList], ["Mb (4.0)".toList, "Md (2.0)".toList],
       ["Mc (3.0)".toList]] ∧
    ∃ a b, (fiveMales.insertionSort ratingDescending)[0]? = some a ∧
      (fiveMales.insertionSort ratingDescending)[
        (fiveMales.insertionSort ratingDescending).length - 1 - 0]? = some b ∧
      (leftoverLoop (pairingLabel stdBuiltins)
        ((fiveMales.insertionSort ratingDescending).length + 1)
        (fiveMales.insertionSort ratingDescending))[0]? =
          some [pairingLabel stdBuiltins a, pairingLabel stdBuiltins b] ∧
      ((fiveMales.insertionSort ratingDescending).Sorted ratingDescending → ∀ j c, 0 ≤ j →
        j ≤ (fiveMales.insertionSort ratingDescending).length - 1 - 0 →
        (fiveMales.insertionSort ratingDescending)[j]? = some c →
          c.rating ≤ a.rating ∧ b.rating ≤ c.rating) :=
  ⟨by decide, by decide!,
    leftover_pairs_front_back (pairingLabel stdBuiltins)
      (fiveMales.insertionSort ratingDescending) 0 (by decide)⟩

/-- The statement of C20 at a pool of five males and four females: four mixed
pairs, and the lowest-rated male alone. -/
theorem pairings_cover_pool_witness :
    poolNine.Nodup ∧
    (∀ p ∈ poolNine, isMale p = true ∨ isFemale p = true) ∧
    pairingsFromObjects (pairingLabel stdBuiltins) (fun _ => false) poolNine =
      [["Mb (7.0)".toList, "Fb (2.5)".toList], ["Mc (6.0)".toList, "Fd (3.5)".toList],
       ["Ma (4.0)".toList, "Fc (5.0)".toList], ["Md (3.0)".toList, "Fa (8.0)".toList],
       ["Me (1.0)".toList]] ∧
    ∃ entries : List (List (Player ℚ)),
      (∀ (β : Type) (label : Player ℚ → β),
        pairingsFromObjects label (fun _ => false) poolNine = entries.map (List.map label)) ∧
      entries.flatten.Perm poolNine ∧
      (∀ p ∈ poolNine, ∃ e ∈ entries, p ∈ e) ∧
      entries.Pairwise List.Disjoint ∧
      (∀ e ∈ entries, e.Nodup ∧ (e.length = 2 ∨ e.length = 1)) ∧
      (entries.filter (fun e => e.length = 1)).length ≤ 1 ∧
      ((∃ e ∈ entries, e.length = 1) → poolNine.length % 2 = 1) :=
  ⟨by decide, by decide, by decide!,
    pairings_cover_pool (fun _ => false) poolNine (by decide) (by decide)⟩

end Proofs

end Elo
